import Mathlib

/-!
Verification of `pan/config.py` (pan-transit): an attribute dictionary of
configuration values with dotted-path access, schema defaults, JSON
persistence and defensive per-entry validation.

Shallow embedding.  JSON-representable Python values are modelled by the
mutual inductive family `Value` / `VList` / `Dict`:

* a Python `dict` with string keys is a `Dict`, an insertion-ordered
  association list (CPython dicts preserve insertion order, and the code
  only ever uses string keys at dict positions);
* a Python `list` is a `VList`;
* scalars are `None`, `bool`, `int`, `str`.  Floats are outside the model.

Python's partial, exception-throwing primitive operations (`d[k]`,
`d[k] = v`, `d.setdefault`, `x in c`, `int(x)`, `str(x)`, `list(x)`, ...)
are embedded as total Lean functions returning `Except Err` (or carrying an
`Option Err` where the original code can observe state mutated before an
exception escapes).  Documented simplifications, none of which any theorem
below exploits:

* `int(s)` for strings accepts optional surrounding whitespace, an optional
  sign and a nonempty digit run; Python's underscore digit grouping is
  treated as invalid;
* `repr` of a string uses single quotes unconditionally and does not escape;
* `dict(x)` coercion only accepts a dict argument (Python additionally
  accepts iterables of pairs);
* Python `==` on two dicts ignores insertion order; here dict equality
  compares entries pairwise in order.

The module-level mutable `DEFAULTS` dictionary is part of the store state
(`ConfigurationStore.defaults`), since `_register` and `_update` mutate it
in place; `ConfigurationStore.init` models constructing a store while the
global defaults dictionary currently holds the given tree.
-/

mutual
/-- Model of a JSON-representable Python value (no floats). -/
inductive Value where
  | vnull : Value
  | vbool (b : Bool) : Value
  | vint (n : Int) : Value
  | vstr (s : String) : Value
  | vlist (xs : VList) : Value
  | vdict (es : Dict) : Value
  deriving DecidableEq
/-- Model of a Python list of values. -/
inductive VList where
  | nil : VList
  | cons (hd : Value) (tl : VList) : VList
  deriving DecidableEq
/-- Model of a Python dict with string keys: an insertion-ordered
association list. -/
inductive Dict where
  | nil : Dict
  | cons (k : String) (v : Value) (tl : Dict) : Dict
  deriving DecidableEq
end

open Value

/-- Kinds of Python exceptions raised by the primitives the code uses. -/
inductive Err where
  | typeError | valueError | keyError | attributeError | indexError
  deriving DecidableEq

/-- Lookup of a key in a dict: the first binding wins (a Python dict holds
at most one binding per key). -/
def Dict.find? : Dict → String → Option Value
  | .nil, _ => none
  | .cons k v tl, key => if k = key then some v else tl.find? key

/-- Does the dict have a binding for the key? -/
def Dict.hasKey (d : Dict) (key : String) : Bool :=
  (d.find? key).isSome

/-- Python `d[key] = val`: replace the value of an existing binding in
place (keeping its position), or append a new binding at the end. -/
def Dict.setItem : Dict → String → Value → Dict
  | .nil, key, val => .cons key val .nil
  | .cons k v tl, key, val =>
      if k = key then .cons k val tl else .cons k v (tl.setItem key val)

/-- Append a binding at the end of the dict (used to model insertion of a
key that is known to be absent). -/
def Dict.pushEnd : Dict → String → Value → Dict
  | .nil, key, val => .cons key val .nil
  | .cons k v tl, key, val => .cons k v (tl.pushEnd key val)

/-- Python `d.setdefault(key, val)`: return the existing value, or insert
`val` at the end and return it.  Returns the new dict and the value. -/
def Dict.setdefault (d : Dict) (key : String) (val : Value) : Dict × Value :=
  match d.find? key with
  | some v => (d, v)
  | none => (d.pushEnd key val, val)

/-- Keys of the dict in order (Python `list(d.keys())`). -/
def Dict.keys : Dict → List String
  | .nil => []
  | .cons k _ tl => k :: tl.keys

/-- Keep only the bindings whose key satisfies the predicate (models the
`del out[name]` loop in `write`). -/
def Dict.filterKeys : Dict → (String → Bool) → Dict
  | .nil, _ => .nil
  | .cons k v tl, p => if p k then .cons k v (tl.filterKeys p) else tl.filterKeys p

/-- Concatenation of two dicts (a proof device for splitting documents). -/
def Dict.concat : Dict → Dict → Dict
  | .nil, d2 => d2
  | .cons k v tl, d2 => .cons k v (tl.concat d2)

/-- Is the value a Python dict? -/
def Value.isDict : Value → Bool
  | vdict _ => true
  | _ => false

/-- View a value known to be a dict as a `Dict` (dummy on other values). -/
def Value.asDict : Value → Dict
  | vdict es => es
  | _ => Dict.nil

/-- Lookup inside a value when it is a dict. -/
def Value.getV? : Value → String → Option Value
  | vdict es, key => es.find? key
  | _, _ => none

/-- The sub-value `setdefault key (vdict nil)` would yield: the existing
entry, or an empty dict. -/
def Value.getD (v : Value) (key : String) : Value :=
  match v.getV? key with
  | some w => w
  | none => vdict Dict.nil

/-- Write into a value known to be a dict, leaving other values unchanged
(only applied where the code guarantees the value is a dict). -/
def Value.setIn : Value → String → Value → Value
  | vdict es, key, val => vdict (es.setItem key val)
  | v, _, _ => v

mutual
/-- Python `==` between two values: `bool` compares equal to the matching
`int` (`True == 1`), lists compare elementwise, dicts entrywise. -/
def pyEq : Value → Value → Bool
  | vnull, vnull => true
  | vbool a, vbool b => a == b
  | vbool a, vint n => (if a then (1 : Int) else 0) == n
  | vint n, vbool b => n == (if b then (1 : Int) else 0)
  | vint a, vint b => a == b
  | vstr a, vstr b => a == b
  | vlist a, vlist b => pyEqList a b
  | vdict a, vdict b => pyEqDict a b
  | _, _ => false
/-- Elementwise Python equality of lists. -/
def pyEqList : VList → VList → Bool
  | VList.nil, VList.nil => true
  | VList.cons a as, VList.cons b bs => pyEq a b && pyEqList as bs
  | _, _ => false
/-- Entrywise Python equality of dicts (in insertion order; see header). -/
def pyEqDict : Dict → Dict → Bool
  | Dict.nil, Dict.nil => true
  | Dict.cons k a as, Dict.cons k' b bs => k == k' && pyEq a b && pyEqDict as bs
  | _, _ => false
end

/-- Python truthiness (`if not values: ...`, `... and ref`). -/
def truthy : Value → Bool
  | vnull => false
  | vbool b => b
  | vint n => n != 0
  | vstr s => s != ""
  | vlist VList.nil => false
  | vlist (VList.cons _ _) => true
  | vdict Dict.nil => false
  | vdict (Dict.cons _ _ _) => true

/-- Does the character list start with the given pattern? -/
def startsWithL : List Char → List Char → Bool
  | [], _ => true
  | _ :: _, [] => false
  | a :: as, b :: bs => a == b && startsWithL as bs

/-- Does the pattern occur as a contiguous run in the character list? -/
def occursIn (pat : List Char) : List Char → Bool
  | [] => startsWithL pat []
  | s@(_ :: rest) => startsWithL pat s || occursIn pat rest

/-- Python substring test `needle in hay` for strings. -/
def pyStrIn (needle hay : String) : Bool :=
  occursIn needle.toList hay.toList

/-- Does the list contain an element Python-equal to the item
(`item in xs` for a list)? -/
def listContains : VList → Value → Bool
  | .nil, _ => false
  | .cons h t, item => pyEq h item || listContains t item

/-- Python `item in container`.  Dicts test key membership (non-string
hashable scalars are simply never equal to a string key; unhashable lists
and dicts raise `TypeError`); strings test substrings of strings and raise
`TypeError` for other items; lists test elementwise equality; scalars are
not iterable and raise `TypeError`. -/
def pyContains : Value → Value → Except Err Bool
  | vdict es, vstr s => .ok (es.find? s).isSome
  | vdict _, vnull => .ok false
  | vdict _, vbool _ => .ok false
  | vdict _, vint _ => .ok false
  | vdict _, vlist _ => .error .typeError
  | vdict _, vdict _ => .error .typeError
  | vstr hay, vstr needle => .ok (pyStrIn needle hay)
  | vstr _, _ => .error .typeError
  | vlist xs, item => .ok (listContains xs item)
  | _, _ => .error .typeError

/-- Python `container[key]` for a string key: dict lookup (`KeyError` when
absent); every other container rejects a string index with `TypeError`. -/
def pyGetItem : Value → String → Except Err Value
  | vdict es, key =>
      match es.find? key with
      | some v => .ok v
      | none => .error .keyError
  | _, _ => .error .typeError

/-- Python `container[key] = val` for a string key: only dicts support
string-keyed item assignment. -/
def pySetItem : Value → String → Value → Except Err Value
  | vdict es, key, val => .ok (vdict (es.setItem key val))
  | _, _, _ => .error .typeError

/-- Python `container.setdefault(key, val)`: only dicts have `setdefault`;
other values raise `AttributeError`. -/
def pySetdefault : Value → String → Value → Except Err (Value × Value)
  | vdict es, key, val =>
      match Dict.setdefault es key val with
      | (es', v) => .ok (vdict es', v)
  | _, _, _ => .error .attributeError

/-- Python `ref[0]` as used by `_coerce` on a truthy `ref`: head of a
nonempty list, first character of a nonempty string, `KeyError` on a dict
with string keys, `TypeError` otherwise. -/
def index0 : Value → Except Err Value
  | vlist (VList.cons h _) => .ok h
  | vlist VList.nil => .error .indexError
  | vstr s =>
      match s.toList with
      | [] => .error .indexError
      | c :: _ => .ok (vstr (String.mk [c]))
  | vdict _ => .error .keyError
  | _ => .error .typeError

/-- Characters Python's `int(str)` strips around the digits. -/
def isPyWS (c : Char) : Bool :=
  c == ' ' || c == '\t' || c == '\n' || c == '\r'

/-- Parse a nonempty run of decimal digits. -/
def digitsToNat : List Char → Option Nat
  | [] => none
  | cs => go 0 cs
where
  go (acc : Nat) : List Char → Option Nat
  | [] => some acc
  | c :: cs => if c.isDigit then go (acc * 10 + (c.toNat - 48)) cs else none

/-- Python `int(s)` for a string: optional surrounding whitespace, optional
sign, nonempty digit run; `none` models `ValueError`. -/
def pyStrToInt (s : String) : Option Int :=
  let cs := ((s.toList.dropWhile isPyWS).reverse.dropWhile isPyWS).reverse
  match cs with
  | '-' :: rest => (digitsToNat rest).map (fun n => -(n : Int))
  | '+' :: rest => (digitsToNat rest).map (fun n => (n : Int))
  | rest => (digitsToNat rest).map (fun n => (n : Int))

/-- Python `int(value)`: identity on ints, 0/1 on bools, string parsing
(`ValueError` on failure), `TypeError` otherwise. -/
def pyToInt : Value → Except Err Int
  | vint n => .ok n
  | vbool b => .ok (if b then 1 else 0)
  | vstr s =>
      match pyStrToInt s with
      | some n => .ok n
      | none => .error .valueError
  | _ => .error .typeError

/-- Decimal rendering of an integer, as Python prints it. -/
def intStr (n : Int) : String :=
  if n < 0 then "-" ++ Nat.repr (-n).toNat else Nat.repr n.toNat

mutual
/-- Python `repr(value)` (see header for the string-quoting
simplification). -/
def pyRepr : Value → String
  | vnull => "None"
  | vbool b => if b then "True" else "False"
  | vint n => intStr n
  | vstr s => "'" ++ s ++ "'"
  | vlist xs => "[" ++ pyReprList xs ++ "]"
  | vdict es => "\x7b" ++ pyReprDict es ++ "\x7d"
/-- Comma-separated reprs of list elements. -/
def pyReprList : VList → String
  | VList.nil => ""
  | VList.cons h VList.nil => pyRepr h
  | VList.cons h t => pyRepr h ++ ", " ++ pyReprList t
/-- Comma-separated reprs of dict entries. -/
def pyReprDict : Dict → String
  | Dict.nil => ""
  | Dict.cons k v Dict.nil => "'" ++ k ++ "': " ++ pyRepr v
  | Dict.cons k v t => "'" ++ k ++ "': " ++ pyRepr v ++ ", " ++ pyReprDict t
end

/-- Python `str(value)`: identity on strings, repr-like on the rest. -/
def pyStr : Value → String
  | vstr s => s
  | vnull => "None"
  | vbool b => if b then "True" else "False"
  | vint n => intStr n
  | vlist xs => pyRepr (vlist xs)
  | vdict es => pyRepr (vdict es)

/-- Python `list(value)`: copy of a list, characters of a string, keys of a
dict; scalars are not iterable. -/
def pyToListChars : List Char → VList
  | [] => VList.nil
  | c :: cs => VList.cons (vstr (String.mk [c])) (pyToListChars cs)

/-- Keys of a dict as a `VList` of strings (`list(d)` in Python). -/
def pyDictKeysL : Dict → VList
  | Dict.nil => VList.nil
  | Dict.cons k _ tl => VList.cons (vstr k) (pyDictKeysL tl)

/-- Python `type(ref)(value)`: conversion of `value` to the runtime type of
`ref`, covering exactly the cases `_coerce` can reach. -/
def pyConvert : Value → Value → Except Err Value
  | vint _, v => (pyToInt v).map vint
  | vbool _, v => .ok (vbool (truthy v))
  | vstr _, v => .ok (vstr (pyStr v))
  | vnull, _ => .error .typeError
  | vlist _, v =>
      match v with
      | vlist xs => .ok (vlist xs)
      | vstr s => .ok (vlist (pyToListChars s.toList))
      | vdict es => .ok (vlist (pyDictKeysL es))
      | _ => .error .typeError
  | vdict _, v =>
      match v with
      | vdict es => .ok (vdict es)
      | vstr _ => .error .valueError
      | _ => .error .typeError

mutual
/-- Method `_coerce(value, ref)`: coerce the type of `value` to match
`ref`.  When `value` is a list and `ref` is truthy, coerce elementwise
against `ref[0]` (so a truthy non-indexable `ref` raises from `ref[0]` —
unless `value` is empty, in which case the comprehension body never runs);
otherwise apply `type(ref)(value)`.  No coercion happens when `ref` is an
empty list: the list is accepted verbatim via `list(value)`. -/
def _coerce : Value → Value → Except Err Value
  | vlist xs, ref =>
      if truthy ref then
        match xs with
        | VList.nil => .ok (vlist VList.nil)
        | VList.cons h t => do
            let r0 ← index0 ref
            let h' ← _coerce h r0
            let t' ← _coerceList t r0
            .ok (vlist (VList.cons h' t'))
      else pyConvert ref (vlist xs)
  | vnull, ref => pyConvert ref vnull
  | vbool b, ref => pyConvert ref (vbool b)
  | vint n, ref => pyConvert ref (vint n)
  | vstr s, ref => pyConvert ref (vstr s)
  | vdict es, ref => pyConvert ref (vdict es)
/-- The list comprehension `[self._coerce(x, ref[0]) for x in value]` after
its first element. -/
def _coerceList : VList → Value → Except Err VList
  | VList.nil, _ => .ok VList.nil
  | VList.cons h t, r0 => do
      let h' ← _coerce h r0
      let t' ← _coerceList t r0
      .ok (VList.cons h' t')
end

/-- Python `option.split(".")`: split on every dot, keeping empty segments
(`"".split(".") == [""]`). -/
def splitDotsAux (cur : List Char) : List Char → List String
  | [] => [String.mk cur.reverse]
  | c :: cs =>
      if c = '.' then String.mk cur.reverse :: splitDotsAux [] cs
      else splitDotsAux (c :: cur) cs

/-- Dotted option path split into its segments. -/
def splitDots (s : String) : List String :=
  splitDotsAux [] s.toList

/-- Leading sections (`option.split(".")[:-1]`) and final name
(`option.split(".")[-1]`) of a dotted option. -/
def splitOptionParts (option : String) : List String × String :=
  match (splitDots option).reverse with
  | [] => ([], "")
  | last :: revInit => (revInit.reverse, last)

/-- Dotted rendering of an accumulated path (`".".join(path + (name,))`). -/
def joinDots : List String → String
  | [] => ""
  | [s] => s
  | s :: rest => s ++ "." ++ joinDots rest

/-- The module-level built-in defaults (`DEFAULTS` in `config.py`). -/
def DEFAULTS : Dict :=
  Dict.cons "departure_time_cutoff" (vint 10)
    (Dict.cons "favorite_highlight_radius" (vint 1000)
      (Dict.cons "provider" (vstr "digitransit")
        (Dict.cons "units" (vstr "metric") Dict.nil)))

/-- The application version string (`pan.__version__`), an external
collaborator value; its contents are irrelevant to the store's logic. -/
def panVersion : String := "1.0"

/-- State of a `ConfigurationStore` together with the module-level
`DEFAULTS` dictionary it reads and mutates. -/
structure ConfigurationStore where
  live : Dict
  defaults : Dict
  deriving DecidableEq

/-- Construction (`ConfigurationStore.__init__`): the live store becomes a
deep copy of the module-level defaults as they currently stand. -/
def ConfigurationStore.init (defaults : Dict) : ConfigurationStore :=
  { live := defaults, defaults := defaults }

/-- Resolution of consecutive dotted segments by repeated subscripting
(`root = root[section]`): `KeyError` on a missing key, `TypeError` whenever
an intermediate value is not a dict (Python raises `TypeError` from the
subscript, the membership test or the item assignment in all those cases). -/
def navigate : Value → List String → Except Err Value
  | v, [] => .ok v
  | v, s :: rest => do navigate (← pyGetItem v s) rest

/-- Walk of `_split_option(option, create=True)` followed by the leaf
assignment of `set`: missing intermediate sections are created as empty
dicts, existing non-dict intermediates raise `TypeError`. -/
def createWalk : Value → List String → String → Value → Except Err Value
  | root, [], name, val => pySetItem root name val
  | root, s :: rest, name, val =>
      match root with
      | vdict es =>
          match es.find? s with
          | some sub => do .ok (vdict (es.setItem s (← createWalk sub rest name val)))
          | none => do .ok (vdict (es.setItem s (← createWalk (vdict .nil) rest name val)))
      | _ => .error .typeError

/-- Walk of `_split_option(option)` (no creation) followed by an operation
on the leaf `root[name]`; the transformed leaf is written back, which
models the in-place mutation of the leaf object. -/
def modifyAt : Value → List String → String → (Value → Except Err Value) → Except Err Value
  | root, [], name, f => do
      let v ← pyGetItem root name
      let v' ← f v
      pySetItem root name v'
  | root, s :: rest, name, f =>
      match root with
      | vdict es =>
          match es.find? s with
          | some sub => do .ok (vdict (es.setItem s (← modifyAt sub rest name f)))
          | none => .error .keyError
      | _ => .error .typeError

/-- Method `get`: resolve the dotted option through the live store and
return a deep copy of the leaf. -/
def ConfigurationStore.get (st : ConfigurationStore) (option : String) : Except Err Value :=
  navigate (vdict st.live) (splitDots option)

/-- Method `get_default`: the same resolution rooted at the module-level
defaults. -/
def ConfigurationStore.get_default (st : ConfigurationStore) (option : String) : Except Err Value :=
  navigate (vdict st.defaults) (splitDots option)

/-- Method `set`: resolve with creation of missing hierarchies, then store
a deep copy of the value at the leaf, overwriting unconditionally. -/
def ConfigurationStore.set (st : ConfigurationStore) (option : String) (value : Value) :
    Except Err ConfigurationStore :=
  let (sections, name) := splitOptionParts option
  (createWalk (vdict st.live) sections name value).map
    (fun v => { st with live := v.asDict })

/-- Append at the end of a list (`list.append`). -/
def VList.pushEnd : VList → Value → VList
  | .nil, x => .cons x .nil
  | .cons h t, x => .cons h (t.pushEnd x)

/-- Remove the first element Python-equal to the item (`list.remove`). -/
def VList.removeFirst : VList → Value → VList
  | .nil, _ => .nil
  | .cons h t, item => if pyEq h item then t else .cons h (t.removeFirst item)

/-- Leaf operation of `add`:
`if not item in root[name]: root[name].append(copy.deepcopy(item))` — only
lists have `append`, and the membership test itself can raise. -/
def addLeaf (item : Value) (v : Value) : Except Err Value := do
  if (← pyContains v item) then .ok v
  else
    match v with
    | vlist xs => .ok (vlist (xs.pushEnd item))
    | _ => .error .attributeError

/-- Leaf operation of `remove`:
`if item in root[name]: root[name].remove(item)` — `remove` deletes the
first equal occurrence, and only lists have `remove`. -/
def removeLeaf (item : Value) (v : Value) : Except Err Value := do
  if (← pyContains v item) then
    match v with
    | vlist xs => .ok (vlist (xs.removeFirst item))
    | _ => .error .attributeError
  else .ok v

/-- Method `add`: append a deep copy of the item to the leaf list unless an
equal item is already present. -/
def ConfigurationStore.add (st : ConfigurationStore) (option : String) (item : Value) :
    Except Err ConfigurationStore :=
  let (sections, name) := splitOptionParts option
  (modifyAt (vdict st.live) sections name (addLeaf item)).map
    (fun v => { st with live := v.asDict })

/-- Method `remove`: remove the first equal occurrence of the item from
the leaf list, if present (only lists have `remove`). -/
def ConfigurationStore.remove (st : ConfigurationStore) (option : String) (item : Value) :
    Except Err ConfigurationStore :=
  let (sections, name) := splitOptionParts option
  (modifyAt (vdict st.live) sections name (removeLeaf item)).map
    (fun v => { st with live := v.asDict })

/-- Method `contains`: membership test over the leaf at the option. -/
def ConfigurationStore.contains (st : ConfigurationStore) (option : String) (item : Value) :
    Except Err Bool := do
  pyContains (← navigate (vdict st.live) (splitDots option)) item

/-- Result of `_register`: the (possibly partially) mutated live store and
defaults, and the exception that escaped, if any.  Python mutates both
trees in place, so mutations performed before an uncaught exception
persist; the model threads them explicitly. -/
structure RegOut where
  root : Value
  defaults : Value
  err : Option Err
  deriving DecidableEq

/-- Method `_register(values, root, defaults)`: add entries for `values` if
missing.  For a nested dict the corresponding subtrees of both the live
store and the defaults are entered (created empty when absent); a leaf is
inserted by `setdefault` into each tree independently, never overwriting.
Arguments of the Python call are evaluated left to right, so
`root.setdefault` runs (and may mutate or raise) before
`defaults.setdefault`; an uncaught `AttributeError` from `setdefault` on a
non-dict leaves the mutations made so far in place. -/
def _register : Dict → Value → Value → RegOut
  | Dict.nil, root, defaults => ⟨root, defaults, none⟩
  | Dict.cons name value tl, root, defaults =>
    match value with
    | vdict sub =>
      match pySetdefault root name (vdict Dict.nil) with
      | .error e => ⟨root, defaults, some e⟩
      | .ok (root1, subR) =>
        match pySetdefault defaults name (vdict Dict.nil) with
        | .error e => ⟨root1, defaults, some e⟩
        | .ok (defaults1, subD) =>
          let out := _register sub subR subD
          let root2 := root1.setIn name out.root
          let defaults2 := defaults1.setIn name out.defaults
          match out.err with
          | some e => ⟨root2, defaults2, some e⟩
          | none => _register tl root2 defaults2
    | _ =>
      match pySetdefault root name value with
      | .error e => ⟨root, defaults, some e⟩
      | .ok (root1, _) =>
        match pySetdefault defaults name value with
        | .error e => ⟨root1, defaults, some e⟩
        | .ok (defaults1, _) => _register tl root1 defaults1

/-- Method `register_provider(name, values)`:
`self._register({"providers": {name: values}})`.  Returns the new store
state and the exception that escaped, if any. -/
def ConfigurationStore.register_provider (st : ConfigurationStore) (name : String)
    (values : Dict) : ConfigurationStore × Option Err :=
  let out := _register
    (Dict.cons "providers" (vdict (Dict.cons name (vdict values) Dict.nil)) Dict.nil)
    (vdict st.live) (vdict st.defaults)
  ({ live := out.root.asDict, defaults := out.defaults.asDict }, out.err)

/-- Diagnostics the code prints to standard error. -/
inductive Diag where
  /-- One line `Discarding bad option-value pair (path, value): error` from
  `_update`; the model records the full dotted path and the offending value
  (the coerced value when coercion succeeded but the assignment failed,
  matching the rebinding of `value` in the Python loop). -/
  | badPair (path : String) (value : Value)
  /-- Traceback printed by `pan.util.silent(Exception, tb=True)` when
  loading the file fails. -/
  | loadFailure
  deriving DecidableEq

/-- Result of `_update`: mutated live store and defaults, diagnostics in
emission order, and the exception that escaped, if any. -/
structure UpdOut where
  root : Value
  defaults : Value
  diags : List Diag
  err : Option Err
  deriving DecidableEq

/-- Method `_update(values, root, defaults, path)`: load values after
validation.  Nested dicts recurse through `setdefault` on both trees (an
`AttributeError` from `setdefault` on a non-dict value escapes uncaught,
leaving prior in-place mutations intact).  For a leaf, the body of the
`try` first evaluates `name in defaults`, coerces against `defaults[name]`
when present, then assigns `root[name]`; any exception there discards the
single pair, emits a diagnostic naming the full dotted path, and
processing continues with the remaining entries. -/
def _update : Dict → Value → Value → List String → UpdOut
  | Dict.nil, root, defaults, _ => ⟨root, defaults, [], none⟩
  | Dict.cons name value tl, root, defaults, path =>
    match value with
    | vdict sub =>
      match pySetdefault root name (vdict Dict.nil) with
      | .error e => ⟨root, defaults, [], some e⟩
      | .ok (root1, subR) =>
        match pySetdefault defaults name (vdict Dict.nil) with
        | .error e => ⟨root1, defaults, [], some e⟩
        | .ok (defaults1, subD) =>
          let out := _update sub subR subD (path ++ [name])
          let root2 := root1.setIn name out.root
          let defaults2 := defaults1.setIn name out.defaults
          match out.err with
          | some e => ⟨root2, defaults2, out.diags, some e⟩
          | none =>
            let rest := _update tl root2 defaults2 path
            ⟨rest.root, rest.defaults, out.diags ++ rest.diags, rest.err⟩
    | _ =>
      match (do
        if (← pyContains defaults (vstr name)) then
          _coerce value (← pyGetItem defaults name)
        else pure value : Except Err Value) with
      | .error _ =>
        let rest := _update tl root defaults path
        ⟨rest.root, rest.defaults,
          Diag.badPair (joinDots (path ++ [name])) value :: rest.diags, rest.err⟩
      | .ok v2 =>
        match pySetItem root name v2 with
        | .error _ =>
          let rest := _update tl root defaults path
          ⟨rest.root, rest.defaults,
            Diag.badPair (joinDots (path ++ [name])) v2 :: rest.diags, rest.err⟩
        | .ok root1 =>
          let rest := _update tl root1 defaults path
          ⟨rest.root, rest.defaults, rest.diags, rest.err⟩

/-- Outcome of `pan.util.read_json(path)` as `read` observes it, modelled
from the spec (the helper itself lives in `pan/util.py`, outside the given
sources): the file is absent, or opening/parsing raises (absorbed by
`silent`, leaving `values = {}`), or a JSON document was parsed. -/
inductive FileState where
  | absent
  | invalid
  | parsed (doc : Value)

/-- Result of a call to `read`: the store state afterwards, the
diagnostics printed, and the exception that escaped, if any. -/
structure ReadOut where
  store : ConfigurationStore
  diags : List Diag
  err : Option Err

/-- Method `read(path)`: nothing happens for a missing file; a failed load
prints a traceback and leaves `values` falsy, so the call returns; a falsy
parsed document also returns.  Otherwise `self._update(values)` runs
outside any exception guard, so whatever `_update` raises propagates to
the caller (`values.items()` on a truthy non-dict document raises
`AttributeError` immediately). -/
def ConfigurationStore.read (st : ConfigurationStore) (file : FileState) : ReadOut :=
  match file with
  | .absent => ⟨st, [], none⟩
  | .invalid => ⟨st, [Diag.loadFailure], none⟩
  | .parsed doc =>
    if truthy doc then
      match doc with
      | vdict entries =>
        let out := _update entries (vdict st.live) (vdict st.defaults) []
        ⟨{ live := out.root.asDict, defaults := out.defaults.asDict }, out.diags, out.err⟩
      | _ => ⟨st, [], some Err.attributeError⟩
    else ⟨st, [], none⟩

/-- The known top-level names at `write` time:
`list(DEFAULTS.keys()) + ["providers"]`, computed from the module-level
defaults as they currently stand. -/
def knownNames (st : ConfigurationStore) : List String :=
  st.defaults.keys ++ ["providers"]

/-- Method `write(path)`: the document serialized to disk — a deep copy of
the live store with every top-level key outside the known set deleted and
a `version` field stamped with the application version.  (Serialization
failures are absorbed by `silent` and the store itself is never changed.) -/
def ConfigurationStore.write (st : ConfigurationStore) : Dict :=
  (st.live.filterKeys (fun k => (knownNames st).contains k)).setItem "version" (vstr panVersion)

/-- A `write` immediately followed by a `read` of the document it wrote. -/
def writeRead (st : ConfigurationStore) : ReadOut :=
  st.read (FileState.parsed (vdict st.write))

/-- A sequence of `register_provider` calls applied in order. -/
def applyRegs : ConfigurationStore → List (String × Dict) → ConfigurationStore
  | st, [] => st
  | st, (n, vs) :: rest => applyRegs (st.register_provider n vs).1 rest

/-- Well-formedness of a value as a Python object: every dict anywhere in
it binds each key at most once (true of every Python dict, and of every
parsed JSON document, but not of arbitrary association lists). -/
def Value.WFv : Value → Bool
  | vdict es => WFd es
  | vlist xs => WFl xs
  | _ => true
where
  /-- Well-formedness of a list's elements. -/
  WFl : VList → Bool
    | .nil => true
    | .cons h t => WFv h && WFl t
  /-- Well-formedness of a dict: distinct keys, well-formed values. -/
  WFd : Dict → Bool
    | .nil => true
    | .cons k v tl => !(tl.hasKey k) && WFv v && WFd tl

/-- Does this run of `_update` avoid every uncaught `setdefault`
exception?  A nested dict in the document requires the current live and
defaults values to be dicts, and the walk continues into the sub-values
`setdefault` would return.  (Leaf entries never raise uncaught: the whole
leaf branch sits inside the `try`.) -/
def safeMerge : Dict → Value → Value → Bool
  | Dict.nil, _, _ => true
  | Dict.cons name value tl, root, defaults =>
    match value with
    | vdict sub =>
        root.isDict && defaults.isDict
          && safeMerge sub (root.getD name) (defaults.getD name)
          && safeMerge tl root defaults
    | _ => safeMerge tl root defaults

/-- Does the store survive this `read` without an escaping exception?
True except for a truthy parsed document that is not a dict, or a merge
that walks a nested document object into a non-dict live/defaults value. -/
def readSafe (st : ConfigurationStore) (file : FileState) : Bool :=
  match file with
  | .absent => true
  | .invalid => true
  | .parsed doc =>
      !truthy doc ||
      (match doc with
       | vdict entries => Value.WFv.WFd entries && safeMerge entries (vdict st.live) (vdict st.defaults)
       | _ => false)

/-- Every top-level entry of the document is already bound, with the same
value, in the given live value (what `write` guarantees of the document it
produces, relative to the live store it was copied from). -/
def subdoc : Dict → Value → Bool
  | Dict.nil, _ => true
  | Dict.cons name value tl, live =>
      (live.getV? name == some value) && subdoc tl live

/-- Every leaf of the document that has a matching default coerces to
itself (and the nested walk follows the defaults exactly as `_update`
does, so a non-dict defaults value under a nested document object fails
the leaf checks it would fail at run time). -/
def selfCoerce : Dict → Value → Bool
  | Dict.nil, _ => true
  | Dict.cons name value tl, defaults =>
    (match value with
     | vdict sub => selfCoerce sub (defaults.getD name)
     | _ =>
        match pyContains defaults (vstr name) with
        | .ok true =>
            match pyGetItem defaults name with
            | .ok ref =>
                match _coerce value ref with
                | .ok v' => v' == value
                | .error _ => false
            | .error _ => false
        | .ok false => true
        | .error _ => false) && selfCoerce tl defaults

/-- Number of elements of the list Python-equal to the item. -/
def countOcc : VList → Value → Nat
  | .nil, _ => 0
  | .cons h t, x => (if pyEq h x then 1 else 0) + countOcc t x

/-- Extension order on values, used to state that registration never
overwrites: a non-dict value is preserved exactly, while a dict may gain
new keys as long as the value of every existing key is itself extended. -/
inductive Extends : Value → Value → Prop where
  | scalar (v : Value) : (∀ es, v ≠ Value.vdict es) → Extends v v
  | dict (es es' : Dict) :
      (∀ k, (es.find? k).isSome → (es'.find? k).isSome) →
      (∀ k w w', es.find? k = some w → es'.find? k = some w' → Extends w w') →
      Extends (Value.vdict es) (Value.vdict es')

theorem Dict.find?_setItem : (d : Dict) → (k : String) → (v : Value) → (k' : String) →
    (d.setItem k v).find? k' = if k' = k then some v else d.find? k'
  | .nil, k, v, k' => by
      rcases eq_or_ne k k' with h | h
      · subst h
        simp [Dict.setItem, Dict.find?]
      · simp [Dict.setItem, Dict.find?, h, Ne.symm h]
  | .cons k0 v0 tl, k, v, k' => by
      rcases eq_or_ne k0 k with h0 | h0
      · subst h0
        rcases eq_or_ne k0 k' with h | h
        · subst h
          simp [Dict.setItem, Dict.find?]
        · simp [Dict.setItem, Dict.find?, h, Ne.symm h]
      · rcases eq_or_ne k' k with h | h
        · subst h
          simp [Dict.setItem, Dict.find?, h0, Ne.symm h0, Dict.find?_setItem tl]
        · simp [Dict.setItem, Dict.find?, h0, h, Dict.find?_setItem tl]

theorem Dict.setItem_self : {d : Dict} → {k : String} → {v : Value} →
    d.find? k = some v → d.setItem k v = d
  | .nil, k, v, h => by simp [Dict.find?] at h
  | .cons k0 v0 tl, k, v, h => by
      by_cases h0 : k0 = k
      · subst h0
        simp [Dict.find?] at h
        simp [Dict.setItem, h]
      · simp [Dict.find?, h0] at h
        simp [Dict.setItem, h0, Dict.setItem_self h]

theorem Dict.setItem_absent : {d : Dict} → {k : String} →
    d.find? k = none → (v : Value) → d.setItem k v = d.pushEnd k v
  | .nil, _, _, _ => rfl
  | .cons k0 v0 tl, k, h, v => by
      by_cases h0 : k0 = k
      · simp [Dict.find?, h0] at h
      · simp [Dict.find?, h0] at h
        simp [Dict.setItem, Dict.pushEnd, h0, Dict.setItem_absent h v]

theorem Dict.find?_pushEnd_ne : {d : Dict} → {k k' : String} →
    k' ≠ k → (v : Value) → (d.pushEnd k v).find? k' = d.find? k'
  | .nil, k, k', h, v => by
      simp [Dict.pushEnd, Dict.find?]
      exact fun h' => absurd h'.symm h
  | .cons k0 v0 tl, k, k', h, v => by
      by_cases h0 : k0 = k' <;>
        simp [Dict.pushEnd, Dict.find?, h0, Dict.find?_pushEnd_ne h v]

theorem Dict.find?_pushEnd_self : {d : Dict} → {k : String} →
    d.find? k = none → (v : Value) → (d.pushEnd k v).find? k = some v
  | .nil, k, h, v => by simp [Dict.pushEnd, Dict.find?]
  | .cons k0 v0 tl, k, h, v => by
      by_cases h0 : k0 = k
      · simp [Dict.find?, h0] at h
      · simp [Dict.find?, h0] at h
        simp [Dict.pushEnd, Dict.find?, h0, Dict.find?_pushEnd_self h v]

theorem Dict.setdefault_found {d : Dict} {k : String} {v : Value} (val : Value)
    (h : d.find? k = some v) : d.setdefault k val = (d, v) := by
  simp [Dict.setdefault, h]

theorem Dict.setdefault_absent {d : Dict} {k : String} (val : Value)
    (h : d.find? k = none) : d.setdefault k val = (d.pushEnd k val, val) := by
  simp [Dict.setdefault, h]

/-- C2: if the file at the target path exists but is unreadable or not
valid JSON, `read` absorbs the exception from the load, prints a
diagnostic, leaves `values` empty and returns early: the entire store
state — live tree and defaults tree alike — is exactly what it was before
the call, and no exception reaches the caller. -/
theorem read_invalid_leaves_store_intact (st : ConfigurationStore) :
    st.read FileState.invalid = ⟨st, [Diag.loadFailure], none⟩ := rfl

/-- C1 counterexample: on a store fresh from construction, reading a valid
JSON document that nests an object two levels below the key `"provider"`
(whose current value is the scalar `"digitransit"`) makes `read` raise an
uncaught `AttributeError`: the recursive `_update` call runs outside the
`silent` guard and `setdefault` is invoked on a string.  The claim that
`read` returns normally for every file content is false. -/
theorem read_propagates_attributeError_cex :
    ((ConfigurationStore.init DEFAULTS).read (FileState.parsed (vdict
        (Dict.cons "provider"
          (vdict (Dict.cons "x" (vdict (Dict.cons "y" (vint 1) Dict.nil)) Dict.nil))
          Dict.nil)))).err = some Err.attributeError := rfl

/-- C8 counterexample: registering provider `"x"` with default `{"a": 1}`
and then again with `{"a": 2}` does not record the new default: both the
live value and the default for `providers.x.a` remain `1`, because
`_register` inserts into the defaults tree with `setdefault`, which
refuses to overwrite an existing key. -/
theorem second_register_default_cex :
    (((ConfigurationStore.init DEFAULTS).register_provider "x"
        (Dict.cons "a" (vint 1) Dict.nil)).1.register_provider "x"
        (Dict.cons "a" (vint 2) Dict.nil)).1.get_default "providers.x.a"
      = .ok (vint 1) := rfl

/-- C8 amended: a later `register_provider` records its default only for a
key that is absent from the defaults tree.  When the key was itself
registered before, neither the live value nor the default changes (both
stay `1` despite the second call passing `2`); when the key exists only in
the live store (here created by `set`), the live value is kept (`7`) while
the default from the registration is recorded (`2`) — the two trees are
checked independently. -/
theorem register_default_recording :
    ((((ConfigurationStore.init DEFAULTS).register_provider "x"
          (Dict.cons "a" (vint 1) Dict.nil)).1.register_provider "x"
          (Dict.cons "a" (vint 2) Dict.nil)).1.get "providers.x.a" = .ok (vint 1)
      ∧ (((ConfigurationStore.init DEFAULTS).register_provider "x"
          (Dict.cons "a" (vint 1) Dict.nil)).1.register_provider "x"
          (Dict.cons "a" (vint 2) Dict.nil)).1.get_default "providers.x.a" = .ok (vint 1))
    ∧ ((ConfigurationStore.init DEFAULTS).set "providers.x.a" (vint 7)).map
        (fun st =>
          let st' := (st.register_provider "x" (Dict.cons "a" (vint 2) Dict.nil)).1
          (st'.get "providers.x.a", st'.get_default "providers.x.a"))
      = .ok (.ok (vint 7), .ok (vint 2)) :=
  ⟨⟨rfl, rfl⟩, rfl⟩

/-- C10: reading the untrusted document `{"junk": {"a": 1}}` into a fresh
store mutates the process-wide defaults tree, not only the live store:
before the read `get_default "junk"` fails with a lookup error, after it
the merge has inserted an empty subtree under `"junk"` into the shared
defaults (while the live store received the full `{"a": 1}`), so
`get_default "junk"` returns the empty tree, and a store constructed
afterwards from the mutated module state inherits the entry. -/
theorem read_mutates_shared_defaults :
    (ConfigurationStore.init DEFAULTS).get_default "junk" = .error Err.keyError
    ∧ (let out := (ConfigurationStore.init DEFAULTS).read (FileState.parsed (vdict
          (Dict.cons "junk" (vdict (Dict.cons "a" (vint 1) Dict.nil)) Dict.nil)))
       out.err = none
        ∧ out.store.get_default "junk" = .ok (vdict Dict.nil)
        ∧ out.store.get "junk.a" = .ok (vint 1)
        ∧ (ConfigurationStore.init out.store.defaults).get_default "junk" = .ok (vdict Dict.nil)
        ∧ (ConfigurationStore.init out.store.defaults).get "junk" = .ok (vdict Dict.nil)) :=
  ⟨rfl, rfl, rfl, rfl, rfl, rfl⟩

/-- C6 counterexample: on a leaf list that already holds two equal items
(`set "dup" [1, 1]` — `set` stores the caller's value verbatim), `add` is
a no-op both times, so after two `add`s the item occurs twice, not once;
and `remove` after `add` deletes only the first occurrence, so `contains`
still returns `True`.  The claim fails for sequences that already hold
duplicates. -/
theorem add_remove_dup_cex :
    (do
      let st ← (ConfigurationStore.init DEFAULTS).set "dup"
        (vlist (VList.cons (vint 1) (VList.cons (vint 1) VList.nil)))
      let st1 ← st.add "dup" (vint 1)
      let st2 ← st1.add "dup" (vint 1)
      let l2 ← st2.get "dup"
      let st3 ← st1.remove "dup" (vint 1)
      let c3 ← st3.contains "dup" (vint 1)
      pure (l2, c3) : Except Err (Value × Bool))
    = .ok (vlist (VList.cons (vint 1) (VList.cons (vint 1) VList.nil)), true) := rfl

/-- C9 counterexample: set the string `"10"` at `departure_time_cutoff`
(whose default is the integer `10`); `write` persists it unchanged, but
the following `read` coerces it against the integer default, so the store
afterwards holds the integer `10` instead of the previously-set string
`"10"` — `write` followed by `read` does not reproduce every
previously-set option value even though the key is in the known set. -/
theorem write_read_coercion_cex :
    ((ConfigurationStore.init DEFAULTS).set "departure_time_cutoff" (vstr "10")).map
      (fun st => (st.get "departure_time_cutoff",
                  (writeRead st).store.get "departure_time_cutoff"))
    = .ok (.ok (vstr "10"), .ok (vint 10)) := rfl

/-- C3: when `_update` processes a leaf whose incoming value is a string
and whose registered default is an integer, a numerically valid string is
stored as the coerced integer and processing continues with the remaining
entries on the updated store; an unconvertible string raises inside the
`try`, so the pair is discarded (the live tree the remaining entries see
is unchanged, keeping the previously stored value for that key), a
diagnostic naming the full dotted path and the offending value is emitted
to standard error, and the remaining entries are still processed. -/
theorem update_string_leaf_coercion (rt dt tl : Dict) (path : List String)
    (name s : String) (d : Int) (h : dt.find? name = some (vint d)) :
    (∀ n : Int, pyStrToInt s = some n →
      _update (Dict.cons name (vstr s) tl) (vdict rt) (vdict dt) path
        = _update tl (vdict (rt.setItem name (vint n))) (vdict dt) path)
    ∧ (pyStrToInt s = none →
      _update (Dict.cons name (vstr s) tl) (vdict rt) (vdict dt) path
        = (let rest := _update tl (vdict rt) (vdict dt) path
           ⟨rest.root, rest.defaults,
             Diag.badPair (joinDots (path ++ [name])) (vstr s) :: rest.diags, rest.err⟩)) := by
  constructor
  · intro n hn
    simp [_update, pyContains, h, pyGetItem, _coerce, pyConvert, pyToInt, hn, pySetItem,
      bind, Except.bind, Except.map]
  · intro hn
    simp [_update, pyContains, h, pyGetItem, _coerce, pyConvert, pyToInt, hn, pySetItem,
      bind, Except.bind, Except.map]

/-- Witness for C3 at the built-in integer default
`departure_time_cutoff = 10`, with the valid string `"10"` and the invalid
string `"abc"`. -/
theorem update_string_leaf_coercion_witness :
    (DEFAULTS.find? "departure_time_cutoff" = some (vint 10)
      ∧ pyStrToInt "10" = some 10
      ∧ _update (Dict.cons "departure_time_cutoff" (vstr "10") Dict.nil)
            (vdict DEFAULTS) (vdict DEFAULTS) []
          = _update Dict.nil (vdict (DEFAULTS.setItem "departure_time_cutoff" (vint 10)))
              (vdict DEFAULTS) [])
    ∧ (pyStrToInt "abc" = none
      ∧ _update (Dict.cons "departure_time_cutoff" (vstr "abc") Dict.nil)
            (vdict DEFAULTS) (vdict DEFAULTS) []
          = (let rest := _update Dict.nil (vdict DEFAULTS) (vdict DEFAULTS) []
             ⟨rest.root, rest.defaults,
               Diag.badPair (joinDots ([] ++ ["departure_time_cutoff"])) (vstr "abc")
                 :: rest.diags, rest.err⟩)) :=
  ⟨⟨rfl, rfl,
    (update_string_leaf_coercion DEFAULTS DEFAULTS Dict.nil [] "departure_time_cutoff"
      "10" 10 rfl).1 10 rfl⟩,
   ⟨rfl,
    (update_string_leaf_coercion DEFAULTS DEFAULTS Dict.nil [] "departure_time_cutoff"
      "abc" 10 rfl).2 rfl⟩⟩

theorem splitDotsAux_ne_nil : ∀ (cur : List Char) (cs : List Char), splitDotsAux cur cs ≠ []
  | cur, [] => by simp [splitDotsAux]
  | cur, c :: cs => by
      by_cases h : c = '.'
      · simp [splitDotsAux, h]
      · simpa [splitDotsAux, h] using splitDotsAux_ne_nil (c :: cur) cs

theorem splitOptionParts_spec (option : String) :
    splitDots option = (splitOptionParts option).1 ++ [(splitOptionParts option).2] := by
  have hne : splitDots option ≠ [] := splitDotsAux_ne_nil [] option.toList
  unfold splitOptionParts
  cases hrev : (splitDots option).reverse with
  | nil =>
      exact absurd (by simpa using congrArg List.reverse hrev) hne
  | cons last revInit =>
      have : splitDots option = revInit.reverse ++ [last] := by
        have := congrArg List.reverse hrev
        simpa using this
      simpa using this

theorem navigate_createWalk : ∀ (sections : List String) (root : Value) (name : String)
    (val root' : Value), createWalk root sections name val = .ok root' →
    navigate root' (sections ++ [name]) = .ok val
  | [], root, name, val, root', h => by
      match root with
      | vdict es =>
          simp [createWalk, pySetItem] at h
          subst h
          simp [navigate, pyGetItem, Dict.find?_setItem, bind, Except.bind]
      | vnull | vbool _ | vint _ | vstr _ | vlist _ =>
          simp [createWalk, pySetItem] at h
  | s :: rest, root, name, val, root', h => by
      match root with
      | vdict es =>
          cases hf : es.find? s with
          | some sub =>
              simp [createWalk, hf] at h
              cases hcw : createWalk sub rest name val with
              | error e => rw [hcw] at h; simp [bind, Except.bind] at h
              | ok sub' =>
                  rw [hcw] at h
                  simp [bind, Except.bind] at h
                  subst h
                  have ih := navigate_createWalk rest sub name val sub' hcw
                  simp [navigate, pyGetItem, Dict.find?_setItem, bind, Except.bind, ih]
          | none =>
              simp [createWalk, hf] at h
              cases hcw : createWalk (vdict .nil) rest name val with
              | error e => rw [hcw] at h; simp [bind, Except.bind] at h
              | ok sub' =>
                  rw [hcw] at h
                  simp [bind, Except.bind] at h
                  subst h
                  have ih := navigate_createWalk rest (vdict .nil) name val sub' hcw
                  simp [navigate, pyGetItem, Dict.find?_setItem, bind, Except.bind, ih]
      | vnull | vbool _ | vint _ | vstr _ | vlist _ =>
          simp [createWalk] at h

theorem createWalk_isDict : ∀ (sections : List String) (es : Dict) (name : String)
    (val root' : Value), createWalk (vdict es) sections name val = .ok root' →
    ∃ es', root' = vdict es'
  | [], es, name, val, root', h => by
      simp [createWalk, pySetItem] at h
      exact ⟨_, h.symm⟩
  | s :: rest, es, name, val, root', h => by
      cases hf : es.find? s with
      | some sub =>
          simp [createWalk, hf] at h
          cases hcw : createWalk sub rest name val with
          | error e => rw [hcw] at h; simp [bind, Except.bind] at h
          | ok sub' =>
              rw [hcw] at h
              simp [bind, Except.bind] at h
              exact ⟨_, h.symm⟩
      | none =>
          simp [createWalk, hf] at h
          cases hcw : createWalk (vdict .nil) rest name val with
          | error e => rw [hcw] at h; simp [bind, Except.bind] at h
          | ok sub' =>
              rw [hcw] at h
              simp [bind, Except.bind] at h
              exact ⟨_, h.symm⟩

/-- C5: a successful `set` followed by `get` of the same dotted option
returns exactly the stored value.  Both sides of the round trip pass
through `copy.deepcopy`, which the value-semantics embedding reflects: the
store keeps its own structural copy of `v` and `get` hands back a copy, so
no mutation of the caller's objects can reach the stored value. -/
theorem set_get_roundtrip (st : ConfigurationStore) (option : String) (v : Value)
    (st' : ConfigurationStore) (h : st.set option v = .ok st') :
    st'.get option = .ok v := by
  have hsplit := splitOptionParts_spec option
  unfold ConfigurationStore.set at h
  cases hsp : splitOptionParts option with
  | mk sections name =>
    rw [hsp] at h hsplit
    dsimp only at h hsplit
    cases hcw : createWalk (vdict st.live) sections name v with
    | error e => rw [hcw] at h; simp [Except.map] at h
    | ok root' =>
        rw [hcw] at h
        simp [Except.map] at h
        obtain ⟨es', rfl⟩ := createWalk_isDict _ _ _ _ _ hcw
        have hnav := navigate_createWalk _ _ _ _ _ hcw
        subst h
        unfold ConfigurationStore.get
        rw [hsplit]
        simpa [Value.asDict] using hnav

/-- Witness for C5: setting `a.b` to `5` on a fresh store succeeds with
the expected state (hierarchy created), and `get "a.b"` returns `5`. -/
theorem set_get_roundtrip_witness :
    (ConfigurationStore.init DEFAULTS).set "a.b" (vint 5) = .ok
      ⟨Dict.cons "departure_time_cutoff" (vint 10)
        (Dict.cons "favorite_highlight_radius" (vint 1000)
          (Dict.cons "provider" (vstr "digitransit")
            (Dict.cons "units" (vstr "metric")
              (Dict.cons "a" (vdict (Dict.cons "b" (vint 5) Dict.nil)) Dict.nil)))),
       DEFAULTS⟩
    ∧ ConfigurationStore.get
        ⟨Dict.cons "departure_time_cutoff" (vint 10)
          (Dict.cons "favorite_highlight_radius" (vint 1000)
            (Dict.cons "provider" (vstr "digitransit")
              (Dict.cons "units" (vstr "metric")
                (Dict.cons "a" (vdict (Dict.cons "b" (vint 5) Dict.nil)) Dict.nil)))),
         DEFAULTS⟩ "a.b" = .ok (vint 5) :=
  ⟨rfl, set_get_roundtrip (ConfigurationStore.init DEFAULTS) "a.b" (vint 5) _ rfl⟩

theorem register_symm : ∀ (doc : Dict) (v : Value),
    (_register doc v v).defaults = (_register doc v v).root
  | Dict.nil, v => rfl
  | Dict.cons name value tl, v => by
      match value with
      | vdict sub =>
          cases hsd : pySetdefault v name (vdict Dict.nil) with
          | error e => simp [_register, hsd]
          | ok pr =>
              obtain ⟨root1, subR⟩ := pr
              have hsub := register_symm sub subR
              simp [_register, hsd]
              rw [hsub]
              cases herr : (_register sub subR subR).err with
              | some e => simp
              | none => simp [register_symm tl (root1.setIn name (_register sub subR subR).root)]
      | vnull =>
          cases hsd : pySetdefault v name vnull with
          | error e => simp [_register, hsd]
          | ok pr =>
              obtain ⟨root1, w⟩ := pr
              simp [_register, hsd, register_symm tl root1]
      | vbool b =>
          cases hsd : pySetdefault v name (vbool b) with
          | error e => simp [_register, hsd]
          | ok pr =>
              obtain ⟨root1, w⟩ := pr
              simp [_register, hsd, register_symm tl root1]
      | vint n =>
          cases hsd : pySetdefault v name (vint n) with
          | error e => simp [_register, hsd]
          | ok pr =>
              obtain ⟨root1, w⟩ := pr
              simp [_register, hsd, register_symm tl root1]
      | vstr s =>
          cases hsd : pySetdefault v name (vstr s) with
          | error e => simp [_register, hsd]
          | ok pr =>
              obtain ⟨root1, w⟩ := pr
              simp [_register, hsd, register_symm tl root1]
      | vlist xs =>
          cases hsd : pySetdefault v name (vlist xs) with
          | error e => simp [_register, hsd]
          | ok pr =>
              obtain ⟨root1, w⟩ := pr
              simp [_register, hsd, register_symm tl root1]

theorem register_provider_symm (st : ConfigurationStore) (h : st.live = st.defaults)
    (n : String) (vs : Dict) :
    ((st.register_provider n vs).1).live = ((st.register_provider n vs).1).defaults := by
  unfold ConfigurationStore.register_provider
  rw [h]
  dsimp only
  rw [register_symm]

theorem applyRegs_symm : ∀ (regs : List (String × Dict)) (st : ConfigurationStore),
    st.live = st.defaults → (applyRegs st regs).live = (applyRegs st regs).defaults
  | [], st, h => h
  | (n, vs) :: rest, st, h => by
      simp [applyRegs]
      exact applyRegs_symm rest _ (register_provider_symm st h n vs)

/-- C4: in a freshly constructed store, and after any sequence of
`register_provider` calls (before any `set` or `read`), the live store and
the defaults tree are identical — construction deep-copies the defaults
and `_register` extends both trees in lock-step — so `get` and
`get_default` agree on every dotted path (in particular on every path
registered in the defaults tree): the defaults fully populate the live
store. -/
theorem defaults_populate_live_store (regs : List (String × Dict)) (opt : String) :
    (applyRegs (ConfigurationStore.init DEFAULTS) regs).get opt
      = (applyRegs (ConfigurationStore.init DEFAULTS) regs).get_default opt := by
  unfold ConfigurationStore.get ConfigurationStore.get_default
  rw [applyRegs_symm regs (ConfigurationStore.init DEFAULTS) rfl]

theorem listContains_eq_countOcc : ∀ (l : VList) (x : Value),
    listContains l x = (countOcc l x != 0)
  | .nil, x => rfl
  | .cons h t, x => by
      cases hpe : pyEq h x <;>
        simp [listContains, countOcc, hpe, listContains_eq_countOcc t x]

theorem countOcc_pushEnd : ∀ (l : VList) (x y : Value),
    countOcc (l.pushEnd x) y = countOcc l y + (if pyEq x y then 1 else 0)
  | .nil, x, y => by simp [VList.pushEnd, countOcc]
  | .cons h t, x, y => by
      simp [VList.pushEnd, countOcc, countOcc_pushEnd t x y]
      omega

theorem countOcc_removeFirst : ∀ (l : VList) (x : Value),
    countOcc (l.removeFirst x) x = countOcc l x - 1
  | .nil, x => rfl
  | .cons h t, x => by
      cases hpe : pyEq h x <;>
        simp [VList.removeFirst, countOcc, hpe, countOcc_removeFirst t x]

theorem modifyAt_isDict : ∀ (sections : List String) (es : Dict) (name : String)
    (f : Value → Except Err Value) (root' : Value),
    modifyAt (vdict es) sections name f = .ok root' → ∃ es', root' = vdict es'
  | [], es, name, f, root', h => by
      cases hf : es.find? name with
      | none => simp [modifyAt, pyGetItem, hf, bind, Except.bind] at h
      | some v =>
          simp [modifyAt, pyGetItem, hf, bind, Except.bind] at h
          cases hfv : f v with
          | error e => rw [hfv] at h; simp [pySetItem] at h
          | ok v' =>
              rw [hfv] at h
              simp [pySetItem] at h
              exact ⟨_, h.symm⟩
  | s :: rest, es, name, f, root', h => by
      cases hf : es.find? s with
      | none => simp [modifyAt, hf] at h
      | some sub =>
          simp [modifyAt, hf] at h
          cases hm : modifyAt sub rest name f with
          | error e => rw [hm] at h; simp [bind, Except.bind] at h
          | ok sub' =>
              rw [hm] at h
              simp [bind, Except.bind] at h
              exact ⟨_, h.symm⟩

theorem navigate_modifyAt : ∀ (sections : List String) (root : Value) (name : String)
    (f : Value → Except Err Value) (v v' : Value),
    navigate root (sections ++ [name]) = .ok v → f v = .ok v' →
    ∃ root', modifyAt root sections name f = .ok root'
      ∧ navigate root' (sections ++ [name]) = .ok v'
  | [], root, name, f, v, v', hnav, hf => by
      match root with
      | vdict es =>
          cases hfind : es.find? name with
          | none => simp [navigate, pyGetItem, hfind, bind, Except.bind] at hnav
          | some u =>
              simp [navigate, pyGetItem, hfind, bind, Except.bind] at hnav
              subst hnav
              refine ⟨vdict (es.setItem name v'), ?_, ?_⟩
              · simp [modifyAt, pyGetItem, hfind, bind, Except.bind, hf, pySetItem]
              · simp [navigate, pyGetItem, Dict.find?_setItem, bind, Except.bind]
      | vnull | vbool _ | vint _ | vstr _ | vlist _ =>
          simp [navigate, pyGetItem, bind, Except.bind] at hnav
  | s :: rest, root, name, f, v, v', hnav, hf => by
      match root with
      | vdict es =>
          cases hfind : es.find? s with
          | none => simp [navigate, pyGetItem, hfind, bind, Except.bind] at hnav
          | some sub =>
              simp [navigate, pyGetItem, hfind, bind, Except.bind] at hnav
              obtain ⟨sub', hm, hnav'⟩ := navigate_modifyAt rest sub name f v v' hnav hf
              refine ⟨vdict (es.setItem s sub'), ?_, ?_⟩
              · simp [modifyAt, hfind, bind, Except.bind, hm]
              · simp [navigate, pyGetItem, Dict.find?_setItem, bind, Except.bind, hnav']
      | vnull | vbool _ | vint _ | vstr _ | vlist _ =>
          simp [navigate, pyGetItem, bind, Except.bind] at hnav

theorem addLeaf_list (x : Value) (l : VList) :
    addLeaf x (vlist l) = .ok (vlist (if listContains l x then l else l.pushEnd x)) := by
  cases hlc : listContains l x <;> simp [addLeaf, pyContains, bind, Except.bind, hlc]

theorem removeLeaf_list (x : Value) (l : VList) :
    removeLeaf x (vlist l) = .ok (vlist (if listContains l x then l.removeFirst x else l)) := by
  cases hlc : listContains l x <;> simp [removeLeaf, pyContains, bind, Except.bind, hlc]

theorem add_leaf_step (st : ConfigurationStore) (opt : String) (x : Value) (l : VList)
    (hget : st.get opt = .ok (vlist l)) :
    ∃ st', st.add opt x = .ok st'
      ∧ st'.get opt = .ok (vlist (if listContains l x then l else l.pushEnd x))
      ∧ st'.defaults = st.defaults := by
  have hsplit := splitOptionParts_spec opt
  unfold ConfigurationStore.get at hget
  unfold ConfigurationStore.add
  cases hsp : splitOptionParts opt with
  | mk sections name =>
    rw [hsp] at hsplit
    dsimp only at hsplit ⊢
    rw [hsplit] at hget
    obtain ⟨root', hm, hnav'⟩ :=
      navigate_modifyAt sections (vdict st.live) name (addLeaf x) _ _ hget (addLeaf_list x l)
    obtain ⟨es', rfl⟩ := modifyAt_isDict _ _ _ _ _ hm
    refine ⟨{ st with live := es' }, ?_, ?_, rfl⟩
    · rw [hm]
      simp [Except.map, Value.asDict]
    · unfold ConfigurationStore.get
      rw [hsplit]
      exact hnav'

theorem remove_leaf_step (st : ConfigurationStore) (opt : String) (x : Value) (l : VList)
    (hget : st.get opt = .ok (vlist l)) :
    ∃ st', st.remove opt x = .ok st'
      ∧ st'.get opt = .ok (vlist (if listContains l x then l.removeFirst x else l))
      ∧ st'.defaults = st.defaults := by
  have hsplit := splitOptionParts_spec opt
  unfold ConfigurationStore.get at hget
  unfold ConfigurationStore.remove
  cases hsp : splitOptionParts opt with
  | mk sections name =>
    rw [hsp] at hsplit
    dsimp only at hsplit ⊢
    rw [hsplit] at hget
    obtain ⟨root', hm, hnav'⟩ :=
      navigate_modifyAt sections (vdict st.live) name (removeLeaf x) _ _ hget (removeLeaf_list x l)
    obtain ⟨es', rfl⟩ := modifyAt_isDict _ _ _ _ _ hm
    refine ⟨{ st with live := es' }, ?_, ?_, rfl⟩
    · rw [hm]
      simp [Except.map, Value.asDict]
    · unfold ConfigurationStore.get
      rw [hsplit]
      exact hnav'

theorem contains_leaf_step (st : ConfigurationStore) (opt : String) (x : Value) (l : VList)
    (hget : st.get opt = .ok (vlist l)) :
    st.contains opt x = .ok (listContains l x) := by
  unfold ConfigurationStore.get at hget
  unfold ConfigurationStore.contains
  rw [hget]
  simp [pyContains, bind, Except.bind]

/-- C6 amended: on a leaf list that initially holds at most one occurrence
of `x` (counting by Python equality, for an `x` equal to itself), two
consecutive `add`s leave exactly one occurrence, and a `remove` after an
`add` makes `contains` return `False`.  The bound on the initial
occurrence count is what the counterexample forces: `add` refuses to
append when an equal element is already present, and `remove` deletes
exactly one occurrence. -/
theorem add_idempotent_remove_clears (st : ConfigurationStore) (opt : String) (x : Value)
    (l : VList) (st1 st2 : ConfigurationStore)
    (hx : pyEq x x = true)
    (hget : st.get opt = .ok (vlist l))
    (hcount : countOcc l x ≤ 1)
    (h1 : st.add opt x = .ok st1)
    (h2 : st1.add opt x = .ok st2) :
    (∃ l2, st2.get opt = .ok (vlist l2) ∧ countOcc l2 x = 1)
    ∧ (∀ st3, st1.remove opt x = .ok st3 → st3.contains opt x = .ok false) := by
  obtain ⟨st1', hadd1, hget1, hdef1⟩ := add_leaf_step st opt x l hget
  rw [h1] at hadd1
  injection hadd1 with hst1
  subst hst1
  have key : ∀ l1, st1.get opt = .ok (vlist l1) → countOcc l1 x = 1 →
      (∃ l2, st2.get opt = .ok (vlist l2) ∧ countOcc l2 x = 1)
      ∧ (∀ st3, st1.remove opt x = .ok st3 → st3.contains opt x = .ok false) := by
    intro l1 hget1' hc1
    have hlc1 : listContains l1 x = true := by
      rw [listContains_eq_countOcc, hc1]
      simp
    constructor
    · obtain ⟨st2', hadd2, hget2, hd2⟩ := add_leaf_step st1 opt x l1 hget1'
      rw [h2] at hadd2
      injection hadd2 with hst2
      subst hst2
      rw [hlc1] at hget2
      simp at hget2
      exact ⟨l1, hget2, hc1⟩
    · intro st3 h3
      obtain ⟨st3', hrem, hget3, hd3⟩ := remove_leaf_step st1 opt x l1 hget1'
      rw [h3] at hrem
      injection hrem with hst3
      subst hst3
      rw [hlc1] at hget3
      simp at hget3
      have h0 : countOcc (l1.removeFirst x) x = 0 := by
        rw [countOcc_removeFirst, hc1]
      have hcont := contains_leaf_step st3 opt x _ hget3
      rw [hcont, listContains_eq_countOcc, h0]
      simp
  cases hlc : listContains l x with
  | true =>
      have hne : countOcc l x ≠ 0 := by
        have h' := (listContains_eq_countOcc l x).symm
        rw [hlc] at h'
        simpa using h'.symm
      rw [hlc] at hget1
      simp at hget1
      exact key l hget1 (by omega)
  | false =>
      have hz : countOcc l x = 0 := by
        have h' := (listContains_eq_countOcc l x).symm
        rw [hlc] at h'
        simpa using h'.symm
      rw [hlc] at hget1
      simp at hget1
      exact key (l.pushEnd x) hget1 (by simp [countOcc_pushEnd, hz, hx])

/-- Witness for C6 on a fresh store with leaf `pile = []`: adding `1`
twice yields exactly one occurrence, and removing after adding makes
`contains` false. -/
theorem add_idempotent_remove_clears_witness :
    pyEq (vint 1) (vint 1) = true
    ∧ (∃ st1 st2 : ConfigurationStore,
        ((ConfigurationStore.init DEFAULTS).set "pile" (vlist VList.nil)).map
          (fun st => st.add "pile" (vint 1)) = .ok (.ok st1)
        ∧ st1.add "pile" (vint 1) = .ok st2
        ∧ (∃ l2, st2.get "pile" = .ok (vlist l2) ∧ countOcc l2 (vint 1) = 1)
        ∧ (∀ st3, st1.remove "pile" (vint 1) = .ok st3 →
            st3.contains "pile" (vint 1) = .ok false)) := by
  constructor
  · rfl
  · refine ⟨⟨Dict.cons "departure_time_cutoff" (vint 10)
        (Dict.cons "favorite_highlight_radius" (vint 1000)
          (Dict.cons "provider" (vstr "digitransit")
            (Dict.cons "units" (vstr "metric")
              (Dict.cons "pile" (vlist (VList.cons (vint 1) VList.nil)) Dict.nil)))),
       DEFAULTS⟩, ?_⟩
    refine ⟨⟨Dict.cons "departure_time_cutoff" (vint 10)
        (Dict.cons "favorite_highlight_radius" (vint 1000)
          (Dict.cons "provider" (vstr "digitransit")
            (Dict.cons "units" (vstr "metric")
              (Dict.cons "pile" (vlist (VList.cons (vint 1) VList.nil)) Dict.nil)))),
       DEFAULTS⟩, rfl, rfl, ?_, ?_⟩
    · exact (add_idempotent_remove_clears
        ⟨Dict.cons "departure_time_cutoff" (vint 10)
          (Dict.cons "favorite_highlight_radius" (vint 1000)
            (Dict.cons "provider" (vstr "digitransit")
              (Dict.cons "units" (vstr "metric")
                (Dict.cons "pile" (vlist VList.nil) Dict.nil)))), DEFAULTS⟩
        "pile" (vint 1) VList.nil _ _ rfl rfl (by decide) rfl rfl).1
    · exact (add_idempotent_remove_clears
        ⟨Dict.cons "departure_time_cutoff" (vint 10)
          (Dict.cons "favorite_highlight_radius" (vint 1000)
            (Dict.cons "provider" (vstr "digitransit")
              (Dict.cons "units" (vstr "metric")
                (Dict.cons "pile" (vlist VList.nil) Dict.nil)))), DEFAULTS⟩
        "pile" (vint 1) VList.nil _ _ rfl rfl (by decide) rfl rfl).2

mutual
theorem extends_refl : ∀ (v : Value), Extends v v
  | vnull => Extends.scalar _ (fun _ h => Value.noConfusion h)
  | vbool b => Extends.scalar _ (fun _ h => Value.noConfusion h)
  | vint n => Extends.scalar _ (fun _ h => Value.noConfusion h)
  | vstr s => Extends.scalar _ (fun _ h => Value.noConfusion h)
  | vlist xs => Extends.scalar _ (fun _ h => Value.noConfusion h)
  | vdict es => Extends.dict es es (fun _ h => h) (fun k w w' h h' => by
      rw [h] at h'
      injection h' with hh
      subst hh
      exact extends_refl_find es k w h)
theorem extends_refl_find : ∀ (es : Dict) (k : String) (w : Value), es.find? k = some w → Extends w w
  | Dict.nil, k, w, h => by simp [Dict.find?] at h
  | Dict.cons k0 v0 tl, k, w, h => by
      by_cases h0 : k0 = k
      · simp [Dict.find?, h0] at h
        subst h
        exact extends_refl v0
      · simp [Dict.find?, h0] at h
        exact extends_refl_find tl k w h
end

theorem extends_trans : ∀ (a b : Value), Extends a b → ∀ c, Extends b c → Extends a c := by
  intro a b h1
  induction h1 with
  | scalar v hnv =>
      intro c h2
      exact h2
  | dict es es' hsome hext ih =>
      intro c h2
      cases h2 with
      | scalar v hnv => exact absurd rfl (hnv es')
      | dict es2 es'' hsome2 hext2 =>
          refine Extends.dict es es'' (fun k hk => hsome2 k (hsome k hk)) ?_
          intro k w w'' hw hw''
          obtain ⟨w', hw'⟩ := Option.isSome_iff_exists.mp (hsome k (by simp [hw]))
          exact ih k w w' hw hw' w'' (hext2 k w' w'' hw' hw'')

theorem extends_isDict {es : Dict} {v : Value} (h : Extends (vdict es) v) :
    ∃ es', v = vdict es' := by
  cases h with
  | scalar _ _ => exact ⟨es, rfl⟩
  | dict a b _ _ => exact ⟨b, rfl⟩

theorem extends_setdefault {v v1 sub : Value} {name : String} {dflt : Value}
    (h : pySetdefault v name dflt = .ok (v1, sub)) :
    ∃ es1, v1 = vdict es1 ∧ es1.find? name = some sub ∧ Extends v v1 := by
  match v with
  | vdict es =>
      simp [pySetdefault] at h
      cases hf : es.find? name with
      | some w =>
          rw [Dict.setdefault_found dflt hf] at h
          obtain ⟨h1, h2⟩ := h
          subst h1
          subst h2
          exact ⟨es, rfl, hf, extends_refl _⟩
      | none =>
          rw [Dict.setdefault_absent dflt hf] at h
          obtain ⟨h1, h2⟩ := h
          subst h1
          subst h2
          refine ⟨es.pushEnd name dflt, rfl, Dict.find?_pushEnd_self hf dflt, ?_⟩
          refine Extends.dict es _ ?_ ?_
          · intro k hk
            by_cases hkn : k = name
            · subst hkn
              simp [hf] at hk
            · rw [Dict.find?_pushEnd_ne hkn dflt]
              exact hk
          · intro k w w' hw hw'
            by_cases hkn : k = name
            · subst hkn
              rw [hf] at hw
              exact Option.noConfusion hw
            · rw [Dict.find?_pushEnd_ne hkn dflt] at hw'
              rw [hw] at hw'
              injection hw' with hh
              subst hh
              exact extends_refl_find es k w hw
  | vnull | vbool _ | vint _ | vstr _ | vlist _ => simp [pySetdefault] at h

theorem extends_setItem_of_find {es : Dict} {name : String} {subR out : Value}
    (hf : es.find? name = some subR) (hext : Extends subR out) :
    Extends (vdict es) (vdict (es.setItem name out)) := by
  refine Extends.dict es _ ?_ ?_
  · intro k hk
    rw [Dict.find?_setItem]
    by_cases hkn : k = name <;> simp [hkn, hk]
  · intro k w w' hw hw'
    rw [Dict.find?_setItem] at hw'
    by_cases hkn : k = name
    · subst hkn
      rw [hf] at hw
      injection hw with hh
      subst hh
      simp at hw'
      subst hw'
      exact hext
    · simp [hkn] at hw'
      rw [hw] at hw'
      injection hw' with hh
      subst hh
      exact extends_refl_find es k w hw

theorem register_cons_leaf (name : String) (value : Value) (tl : Dict) (root defaults : Value)
    (hval : ∀ sub, value ≠ vdict sub) :
    _register (Dict.cons name value tl) root defaults =
      (match pySetdefault root name value with
      | .error e => ⟨root, defaults, some e⟩
      | .ok (root1, _) =>
        match pySetdefault defaults name value with
        | .error e => ⟨root1, defaults, some e⟩
        | .ok (defaults1, _) => _register tl root1 defaults1) := by
  match value with
  | vdict sub => exact absurd rfl (hval sub)
  | vnull => rfl
  | vbool _ => rfl
  | vint _ => rfl
  | vstr _ => rfl
  | vlist _ => rfl

theorem register_extends : ∀ (doc : Dict) (root defaults : Value),
    Extends root (_register doc root defaults).root
      ∧ Extends defaults (_register doc root defaults).defaults
  | Dict.nil, root, defaults => ⟨extends_refl root, extends_refl defaults⟩
  | Dict.cons name value tl, root, defaults => by
      match hv : value with
      | vdict sub =>
          cases hsd : pySetdefault root name (vdict Dict.nil) with
          | error e =>
              simp [_register, hsd]
              exact ⟨extends_refl root, extends_refl defaults⟩
          | ok pr =>
              obtain ⟨root1, subR⟩ := pr
              cases hsd2 : pySetdefault defaults name (vdict Dict.nil) with
              | error e =>
                  obtain ⟨es1, rfl, hf1, hx1⟩ := extends_setdefault hsd
                  simp [_register, hsd, hsd2]
                  exact ⟨hx1, extends_refl defaults⟩
              | ok pr2 =>
                  obtain ⟨defaults1, subD⟩ := pr2
                  obtain ⟨es1, rfl, hf1, hx1⟩ := extends_setdefault hsd
                  obtain ⟨es2, rfl, hf2, hx2⟩ := extends_setdefault hsd2
                  obtain ⟨hr, hd⟩ := register_extends sub subR subD
                  have hroot2 : Extends root
                      (vdict (es1.setItem name (_register sub subR subD).root)) :=
                    extends_trans _ _ hx1 _ (extends_setItem_of_find hf1 hr)
                  have hdef2 : Extends defaults
                      (vdict (es2.setItem name (_register sub subR subD).defaults)) :=
                    extends_trans _ _ hx2 _ (extends_setItem_of_find hf2 hd)
                  cases herr : (_register sub subR subD).err with
                  | some e =>
                      simp [_register, hsd, hsd2, herr, Value.setIn]
                      exact ⟨hroot2, hdef2⟩
                  | none =>
                      obtain ⟨hr2, hd2⟩ := register_extends tl
                        (vdict (es1.setItem name (_register sub subR subD).root))
                        (vdict (es2.setItem name (_register sub subR subD).defaults))
                      simp [_register, hsd, hsd2, herr, Value.setIn]
                      exact ⟨extends_trans _ _ hroot2 _ hr2, extends_trans _ _ hdef2 _ hd2⟩
      | vnull =>
          rw [register_cons_leaf name vnull tl root defaults (fun _ h => Value.noConfusion h)]
          cases hsd : pySetdefault root name vnull with
          | error e => exact ⟨extends_refl root, extends_refl defaults⟩
          | ok pr =>
              obtain ⟨root1, w⟩ := pr
              obtain ⟨es1, rfl, hf1, hx1⟩ := extends_setdefault hsd
              cases hsd2 : pySetdefault defaults name vnull with
              | error e => exact ⟨hx1, extends_refl defaults⟩
              | ok pr2 =>
                  obtain ⟨defaults1, w2⟩ := pr2
                  obtain ⟨es2, rfl, hf2, hx2⟩ := extends_setdefault hsd2
                  obtain ⟨hr2, hd2⟩ := register_extends tl (vdict es1) (vdict es2)
                  exact ⟨extends_trans _ _ hx1 _ hr2, extends_trans _ _ hx2 _ hd2⟩
      | vbool b =>
          rw [register_cons_leaf name (vbool b) tl root defaults (fun _ h => Value.noConfusion h)]
          cases hsd : pySetdefault root name (vbool b) with
          | error e => exact ⟨extends_refl root, extends_refl defaults⟩
          | ok pr =>
              obtain ⟨root1, w⟩ := pr
              obtain ⟨es1, rfl, hf1, hx1⟩ := extends_setdefault hsd
              cases hsd2 : pySetdefault defaults name (vbool b) with
              | error e => exact ⟨hx1, extends_refl defaults⟩
              | ok pr2 =>
                  obtain ⟨defaults1, w2⟩ := pr2
                  obtain ⟨es2, rfl, hf2, hx2⟩ := extends_setdefault hsd2
                  obtain ⟨hr2, hd2⟩ := register_extends tl (vdict es1) (vdict es2)
                  exact ⟨extends_trans _ _ hx1 _ hr2, extends_trans _ _ hx2 _ hd2⟩
      | vint n =>
          rw [register_cons_leaf name (vint n) tl root defaults (fun _ h => Value.noConfusion h)]
          cases hsd : pySetdefault root name (vint n) with
          | error e => exact ⟨extends_refl root, extends_refl defaults⟩
          | ok pr =>
              obtain ⟨root1, w⟩ := pr
              obtain ⟨es1, rfl, hf1, hx1⟩ := extends_setdefault hsd
              cases hsd2 : pySetdefault defaults name (vint n) with
              | error e => exact ⟨hx1, extends_refl defaults⟩
              | ok pr2 =>
                  obtain ⟨defaults1, w2⟩ := pr2
                  obtain ⟨es2, rfl, hf2, hx2⟩ := extends_setdefault hsd2
                  obtain ⟨hr2, hd2⟩ := register_extends tl (vdict es1) (vdict es2)
                  exact ⟨extends_trans _ _ hx1 _ hr2, extends_trans _ _ hx2 _ hd2⟩
      | vstr s =>
          rw [register_cons_leaf name (vstr s) tl root defaults (fun _ h => Value.noConfusion h)]
          cases hsd : pySetdefault root name (vstr s) with
          | error e => exact ⟨extends_refl root, extends_refl defaults⟩
          | ok pr =>
              obtain ⟨root1, w⟩ := pr
              obtain ⟨es1, rfl, hf1, hx1⟩ := extends_setdefault hsd
              cases hsd2 : pySetdefault defaults name (vstr s) with
              | error e => exact ⟨hx1, extends_refl defaults⟩
              | ok pr2 =>
                  obtain ⟨defaults1, w2⟩ := pr2
                  obtain ⟨es2, rfl, hf2, hx2⟩ := extends_setdefault hsd2
                  obtain ⟨hr2, hd2⟩ := register_extends tl (vdict es1) (vdict es2)
                  exact ⟨extends_trans _ _ hx1 _ hr2, extends_trans _ _ hx2 _ hd2⟩
      | vlist xs =>
          rw [register_cons_leaf name (vlist xs) tl root defaults (fun _ h => Value.noConfusion h)]
          cases hsd : pySetdefault root name (vlist xs) with
          | error e => exact ⟨extends_refl root, extends_refl defaults⟩
          | ok pr =>
              obtain ⟨root1, w⟩ := pr
              obtain ⟨es1, rfl, hf1, hx1⟩ := extends_setdefault hsd
              cases hsd2 : pySetdefault defaults name (vlist xs) with
              | error e => exact ⟨hx1, extends_refl defaults⟩
              | ok pr2 =>
                  obtain ⟨defaults1, w2⟩ := pr2
                  obtain ⟨es2, rfl, hf2, hx2⟩ := extends_setdefault hsd2
                  obtain ⟨hr2, hd2⟩ := register_extends tl (vdict es1) (vdict es2)
                  exact ⟨extends_trans _ _ hx1 _ hr2, extends_trans _ _ hx2 _ hd2⟩

theorem extends_navigate : ∀ (segs : List String) (root root' v : Value),
    Extends root root' → navigate root segs = .ok v → (∀ es, v ≠ vdict es) →
    navigate root' segs = .ok v
  | [], root, root', v, hext, hnav, hnd => by
      simp [navigate] at hnav
      subst hnav
      cases hext with
      | scalar _ _ => simp [navigate]
      | dict es es' _ _ => exact absurd rfl (hnd es)
  | s :: rest, root, root', v, hext, hnav, hnd => by
      match root with
      | vdict es =>
          cases hf : es.find? s with
          | none => simp [navigate, pyGetItem, hf, bind, Except.bind] at hnav
          | some u =>
              simp [navigate, pyGetItem, hf, bind, Except.bind] at hnav
              cases hext with
              | scalar _ hnv => exact absurd rfl (hnv es)
              | dict es2 es' hsome hx =>
                  obtain ⟨u', hu'⟩ := Option.isSome_iff_exists.mp (hsome s (by simp [hf]))
                  have hxu : Extends u u' := hx s u u' hf hu'
                  have ih := extends_navigate rest u u' v hxu hnav hnd
                  simp [navigate, pyGetItem, hu', bind, Except.bind, ih]
      | vnull | vbool _ | vint _ | vstr _ | vlist _ =>
          simp [navigate, pyGetItem, bind, Except.bind] at hnav

/-- C7: registration inserts but never overwrites.  The concrete half:
registering provider `"x"` with `{"a": 1}` and then with `{"a": 2}` leaves
the live value at `1`.  The general half: `register_provider` only extends
the live store and the defaults tree — every dotted option that resolved
to a non-dict leaf before a registration resolves to exactly the same
value afterwards, in the live store (`get`) and in the defaults tree
(`get_default`) independently. -/
theorem register_never_overwrites :
    ((((ConfigurationStore.init DEFAULTS).register_provider "x"
        (Dict.cons "a" (vint 1) Dict.nil)).1.register_provider "x"
        (Dict.cons "a" (vint 2) Dict.nil)).1.get "providers.x.a" = .ok (vint 1))
    ∧ ∀ (st : ConfigurationStore) (name : String) (values : Dict) (opt : String) (v : Value),
        (∀ es, v ≠ vdict es) →
        (st.get opt = .ok v → (st.register_provider name values).1.get opt = .ok v)
        ∧ (st.get_default opt = .ok v →
            (st.register_provider name values).1.get_default opt = .ok v) := by
  constructor
  · rfl
  · intro st name values opt v hnd
    unfold ConfigurationStore.register_provider ConfigurationStore.get ConfigurationStore.get_default
    dsimp only
    obtain ⟨hr, hd⟩ := register_extends
      (Dict.cons "providers" (vdict (Dict.cons name (vdict values) Dict.nil)) Dict.nil)
      (vdict st.live) (vdict st.defaults)
    obtain ⟨es1, he1⟩ := extends_isDict hr
    obtain ⟨es2, he2⟩ := extends_isDict hd
    rw [he1] at hr
    rw [he2] at hd
    rw [he1, he2]
    constructor
    · intro hget
      exact extends_navigate _ _ _ _ hr hget hnd
    · intro hget
      exact extends_navigate _ _ _ _ hd hget hnd

/-- Witness for C7's general half: registering a provider leaves the
untouched built-in leaf `provider = "digitransit"` unchanged in both the
live store and the defaults tree. -/
theorem register_never_overwrites_witness :
    ((ConfigurationStore.init DEFAULTS).register_provider "x"
        (Dict.cons "a" (vint 1) Dict.nil)).1.get "provider" = .ok (vstr "digitransit")
    ∧ ((ConfigurationStore.init DEFAULTS).register_provider "x"
        (Dict.cons "a" (vint 1) Dict.nil)).1.get_default "provider" = .ok (vstr "digitransit") :=
  ⟨(register_never_overwrites.2 (ConfigurationStore.init DEFAULTS) "x"
      (Dict.cons "a" (vint 1) Dict.nil) "provider" (vstr "digitransit")
      (fun _ h => Value.noConfusion h)).1 rfl,
   (register_never_overwrites.2 (ConfigurationStore.init DEFAULTS) "x"
      (Dict.cons "a" (vint 1) Dict.nil) "provider" (vstr "digitransit")
      (fun _ h => Value.noConfusion h)).2 rfl⟩

theorem Dict.hasKey_cons_of_tail {tl : Dict} {k : String} (name : String) (v : Value)
    (h : tl.hasKey k = true) : (Dict.cons name v tl).hasKey k = true := by
  by_cases hn : name = k <;> simp [Dict.hasKey, Dict.find?, hn]
  simpa [Dict.hasKey] using h

theorem Dict.hasKey_cons_self (tl : Dict) (name : String) (v : Value) :
    (Dict.cons name v tl).hasKey name = true := by
  simp [Dict.hasKey, Dict.find?]

theorem getD_setItem_ne {es : Dict} {name k : String} (h : k ≠ name) (x : Value) :
    (vdict (es.setItem name x)).getD k = (vdict es).getD k := by
  simp [Value.getD, Value.getV?, Dict.find?_setItem, h]

theorem getD_pushEnd_ne {es : Dict} {name k : String} (h : k ≠ name) (x : Value) :
    (vdict (es.pushEnd name x)).getD k = (vdict es).getD k := by
  simp [Value.getD, Value.getV?, Dict.find?_pushEnd_ne h]

theorem isDict_iff {v : Value} (h : v.isDict = true) : ∃ es, v = vdict es := by
  match v with
  | vdict es => exact ⟨es, rfl⟩
  | vnull | vbool _ | vint _ | vstr _ | vlist _ => simp [Value.isDict] at h

theorem pySetdefault_empty (es : Dict) (name : String) :
    ∃ es1, pySetdefault (vdict es) name (vdict Dict.nil)
        = .ok (vdict es1, (vdict es).getD name)
      ∧ (∀ k, k ≠ name → (vdict es1).getD k = (vdict es).getD k)
      ∧ es1.find? name = some ((vdict es).getD name) := by
  cases hf : es.find? name with
  | some w =>
      refine ⟨es, ?_, fun k hk => rfl, ?_⟩
      · simp [pySetdefault, Dict.setdefault, hf, Value.getD, Value.getV?]
      · simp [hf, Value.getD, Value.getV?]
  | none =>
      refine ⟨es.pushEnd name (vdict Dict.nil), ?_, ?_, ?_⟩
      · simp [pySetdefault, Dict.setdefault, hf, Value.getD, Value.getV?]
      · exact fun k hk => getD_pushEnd_ne hk _
      · simp [Dict.find?_pushEnd_self hf, Value.getD, Value.getV?, hf]

theorem safeMerge_congr : ∀ (tl : Dict) (root root' defaults defaults' : Value),
    root.isDict = root'.isDict → defaults.isDict = defaults'.isDict →
    (∀ k, tl.hasKey k = true → root.getD k = root'.getD k ∧ defaults.getD k = defaults'.getD k) →
    safeMerge tl root defaults = safeMerge tl root' defaults'
  | Dict.nil, _, _, _, _, _, _, _ => rfl
  | Dict.cons name value tlr, root, root', defaults, defaults', hr, hd, hk => by
      have hrec := safeMerge_congr tlr root root' defaults defaults' hr hd
        (fun k hkk => hk k (Dict.hasKey_cons_of_tail name value hkk))
      match value with
      | vdict sub =>
          have hname := hk name (Dict.hasKey_cons_self tlr name (vdict sub))
          simp only [safeMerge]
          rw [hr, hd, hname.1, hname.2, hrec]
      | vnull => simpa only [safeMerge] using hrec
      | vbool b => simpa only [safeMerge] using hrec
      | vint n => simpa only [safeMerge] using hrec
      | vstr s => simpa only [safeMerge] using hrec
      | vlist xs => simpa only [safeMerge] using hrec

theorem update_cons_leaf (name : String) (value : Value) (tl : Dict)
    (root defaults : Value) (path : List String)
    (hval : ∀ sub, value ≠ vdict sub) :
    _update (Dict.cons name value tl) root defaults path =
      (match (do
        if (← pyContains defaults (vstr name)) then
          _coerce value (← pyGetItem defaults name)
        else pure value : Except Err Value) with
      | .error _ =>
        let rest := _update tl root defaults path
        ⟨rest.root, rest.defaults,
          Diag.badPair (joinDots (path ++ [name])) value :: rest.diags, rest.err⟩
      | .ok v2 =>
        match pySetItem root name v2 with
        | .error _ =>
          let rest := _update tl root defaults path
          ⟨rest.root, rest.defaults,
            Diag.badPair (joinDots (path ++ [name])) v2 :: rest.diags, rest.err⟩
        | .ok root1 =>
          let rest := _update tl root1 defaults path
          ⟨rest.root, rest.defaults, rest.diags, rest.err⟩) := by
  match value with
  | vdict sub => exact absurd rfl (hval sub)
  | vnull => rfl
  | vbool _ => rfl
  | vint _ => rfl
  | vstr _ => rfl
  | vlist _ => rfl

theorem update_leaf_err (name : String) (value : Value) (tl : Dict)
    (root defaults : Value) (path : List String)
    (hval : ∀ sub, value ≠ vdict sub)
    (hwk : tl.hasKey name = false)
    (htl : safeMerge tl root defaults = true)
    (ih : ∀ r d, safeMerge tl r d = true → (_update tl r d path).err = none) :
    (_update (Dict.cons name value tl) root defaults path).err = none := by
  rw [update_cons_leaf name value tl root defaults path hval]
  split
  · exact ih root defaults htl
  · rename_i v2 hco
    split
    · exact ih root defaults htl
    · rename_i root1 hsi
      dsimp only
      match root, hsi with
      | vdict es, hsi =>
          simp [pySetItem] at hsi
          subst hsi
          apply ih _ defaults
          rw [← safeMerge_congr tl (vdict es) (vdict (es.setItem name v2)) defaults defaults
            rfl rfl ?_]
          · exact htl
          · intro k hkk
            refine ⟨(getD_setItem_ne ?_ v2).symm, rfl⟩
            intro hk
            subst hk
            rw [hkk] at hwk
            exact Bool.noConfusion hwk

theorem update_err_none : ∀ (doc : Dict) (root defaults : Value) (path : List String),
    Value.WFv.WFd doc = true → safeMerge doc root defaults = true →
    (_update doc root defaults path).err = none
  | Dict.nil, root, defaults, path, _, _ => rfl
  | Dict.cons name value tl, root, defaults, path, hwf, hsafe => by
      have hwf' := hwf
      simp only [Value.WFv.WFd, Bool.and_eq_true, Bool.not_eq_true'] at hwf'
      obtain ⟨⟨hwk, hwv⟩, hwtl⟩ := hwf'
      match value with
      | vdict sub =>
          simp only [safeMerge, Bool.and_eq_true] at hsafe
          obtain ⟨⟨⟨hrd, hdd⟩, hsub⟩, htl⟩ := hsafe
          obtain ⟨es, rfl⟩ := isDict_iff hrd
          obtain ⟨ds, rfl⟩ := isDict_iff hdd
          obtain ⟨es1, hsd1, hes1, hf1⟩ := pySetdefault_empty es name
          obtain ⟨ds1, hsd2, hds1, hf2⟩ := pySetdefault_empty ds name
          have ihsub := update_err_none sub ((vdict es).getD name) ((vdict ds).getD name)
            (path ++ [name]) (by simpa [Value.WFv] using hwv) hsub
          have hcong : ∀ x y,
              safeMerge tl (vdict (es1.setItem name x)) (vdict (ds1.setItem name y)) = true := by
            intro x y
            rw [← safeMerge_congr tl (vdict es) (vdict (es1.setItem name x))
              (vdict ds) (vdict (ds1.setItem name y)) rfl rfl ?_]
            · exact htl
            · intro k hkk
              have hk : k ≠ name := by
                intro hk
                subst hk
                rw [hkk] at hwk
                exact Bool.noConfusion hwk
              exact ⟨((getD_setItem_ne hk x).trans (hes1 k hk)).symm,
                ((getD_setItem_ne hk y).trans (hds1 k hk)).symm⟩
          simp only [_update, hsd1, hsd2, ihsub, Value.setIn]
          exact update_err_none tl _ _ path hwtl (hcong _ _)
      | vnull =>
          exact update_leaf_err name vnull tl root defaults path
            (fun _ h => Value.noConfusion h) hwk (by simpa [safeMerge] using hsafe)
            (fun r d hs => update_err_none tl r d path hwtl hs)
      | vbool b =>
          exact update_leaf_err name (vbool b) tl root defaults path
            (fun _ h => Value.noConfusion h) hwk (by simpa [safeMerge] using hsafe)
            (fun r d hs => update_err_none tl r d path hwtl hs)
      | vint n =>
          exact update_leaf_err name (vint n) tl root defaults path
            (fun _ h => Value.noConfusion h) hwk (by simpa [safeMerge] using hsafe)
            (fun r d hs => update_err_none tl r d path hwtl hs)
      | vstr s =>
          exact update_leaf_err name (vstr s) tl root defaults path
            (fun _ h => Value.noConfusion h) hwk (by simpa [safeMerge] using hsafe)
            (fun r d hs => update_err_none tl r d path hwtl hs)
      | vlist xs =>
          exact update_leaf_err name (vlist xs) tl root defaults path
            (fun _ h => Value.noConfusion h) hwk (by simpa [safeMerge] using hsafe)
            (fun r d hs => update_err_none tl r d path hwtl hs)

/-- C1 amended: `write` never raises (every serialization failure is
absorbed by `silent`, which the model reflects by `write` being a total
function of the store), and `read` raises nothing for any file state that
satisfies `readSafe`: a missing file, a failed load, a falsy document, or
a well-formed JSON object whose nested objects never land on a non-dict
value of the live store or defaults tree.  Outside `readSafe` — a truthy
non-object document, or a nested object over a scalar — the merge runs
outside the `silent` guard and an `AttributeError` escapes `read`
(see the counterexample). -/
theorem read_write_error_containment (st : ConfigurationStore) (file : FileState)
    (h : readSafe st file = true) : (st.read file).err = none := by
  match file with
  | FileState.absent => rfl
  | FileState.invalid => rfl
  | FileState.parsed doc =>
      unfold ConfigurationStore.read
      cases ht : truthy doc with
      | false => simp [ht]
      | true =>
          simp only [readSafe, ht, Bool.not_true, Bool.false_or] at h
          match doc, h with
          | vdict entries, h =>
              simp only [Bool.and_eq_true] at h
              simp only [ht, if_pos rfl]
              exact update_err_none entries (vdict st.live) (vdict st.defaults) [] h.1 h.2
          | vnull, h => exact Bool.noConfusion h
          | vbool b, h => exact Bool.noConfusion h
          | vint n, h => exact Bool.noConfusion h
          | vstr s, h => exact Bool.noConfusion h
          | vlist xs, h => exact Bool.noConfusion h

/-- Witness for C1's amended containment: reading the document
`{"departure_time_cutoff": "7"}` (a bad-typed but object-shaped document)
into a fresh store is `readSafe` and indeed raises nothing. -/
theorem read_write_error_containment_witness :
    readSafe (ConfigurationStore.init DEFAULTS)
        (FileState.parsed (vdict (Dict.cons "departure_time_cutoff" (vstr "7") Dict.nil)))
      = true
    ∧ ((ConfigurationStore.init DEFAULTS).read
        (FileState.parsed (vdict (Dict.cons "departure_time_cutoff" (vstr "7") Dict.nil)))).err
      = none :=
  ⟨rfl, read_write_error_containment (ConfigurationStore.init DEFAULTS)
    (FileState.parsed (vdict (Dict.cons "departure_time_cutoff" (vstr "7") Dict.nil))) rfl⟩

theorem filterKeys_hasKey : ∀ (d : Dict) (p : String → Bool) (k : String),
    (d.filterKeys p).hasKey k = true → d.hasKey k = true
  | Dict.nil, p, k, h => h
  | Dict.cons k0 v0 tl, p, k, h => by
      by_cases h0 : k0 = k
      · simp [Dict.hasKey, Dict.find?, h0]
      · by_cases hp : p k0
        · simp only [Dict.filterKeys, hp, if_pos rfl] at h
          simp [Dict.hasKey, Dict.find?, h0] at h ⊢
          exact (by simpa [Dict.hasKey] using filterKeys_hasKey tl p k (by simpa [Dict.hasKey] using h))
        · simp only [Dict.filterKeys, hp] at h
          simp [Dict.hasKey, Dict.find?, h0]
          simpa [Dict.hasKey] using filterKeys_hasKey tl p k (by simpa [Dict.hasKey] using h)

theorem filterKeys_find?_of_not : ∀ (d : Dict) (p : String → Bool) (k : String),
    p k = false → (d.filterKeys p).find? k = none
  | Dict.nil, p, k, h => rfl
  | Dict.cons k0 v0 tl, p, k, h => by
      by_cases h0 : k0 = k
      · subst h0
        simp [Dict.filterKeys, h]
        exact filterKeys_find?_of_not tl p k0 h
      · by_cases hp : p k0 <;>
          simp [Dict.filterKeys, hp, Dict.find?, h0, filterKeys_find?_of_not tl p k h]

theorem subdoc_cons_lift : ∀ (d : Dict) (k0 : String) (v0 : Value) (tl : Dict),
    (∀ k, d.hasKey k = true → k ≠ k0) →
    subdoc d (vdict tl) = true →
    subdoc d (vdict (Dict.cons k0 v0 tl)) = true
  | Dict.nil, k0, v0, tl, hk, h => rfl
  | Dict.cons k1 v1 dtl, k0, v0, tl, hk, h => by
      simp only [subdoc, Bool.and_eq_true] at h ⊢
      obtain ⟨h1, h2⟩ := h
      constructor
      · have hne : k1 ≠ k0 := hk k1 (Dict.hasKey_cons_self dtl k1 v1)
        simp only [Value.getV?, Dict.find?] at h1 ⊢
        rw [if_neg (fun hh => hne hh.symm)]
        exact h1
      · exact subdoc_cons_lift dtl k0 v0 tl
          (fun k hkk => hk k (Dict.hasKey_cons_of_tail k1 v1 hkk)) h2

theorem subdoc_refl : ∀ (d : Dict), Value.WFv.WFd d = true → subdoc d (vdict d) = true
  | Dict.nil, _ => rfl
  | Dict.cons k0 v0 tl, hwf => by
      simp only [Value.WFv.WFd, Bool.and_eq_true, Bool.not_eq_true'] at hwf
      obtain ⟨⟨hwk, hwv⟩, hwtl⟩ := hwf
      simp only [subdoc, Bool.and_eq_true]
      constructor
      · simp [Value.getV?, Dict.find?]
      · refine subdoc_cons_lift tl k0 v0 tl ?_ (subdoc_refl tl hwtl)
        intro k hkk heq
        subst heq
        rw [hkk] at hwk
        exact Bool.noConfusion hwk

theorem subdoc_filterKeys : ∀ (live : Dict), Value.WFv.WFd live = true →
    ∀ p, subdoc (live.filterKeys p) (vdict live) = true
  | Dict.nil, _, p => rfl
  | Dict.cons k0 v0 tl, hwf, p => by
      simp only [Value.WFv.WFd, Bool.and_eq_true, Bool.not_eq_true'] at hwf
      obtain ⟨⟨hwk, hwv⟩, hwtl⟩ := hwf
      have hlift : ∀ d : Dict, (∀ k, d.hasKey k = true → tl.hasKey k = true) →
          subdoc d (vdict tl) = true → subdoc d (vdict (Dict.cons k0 v0 tl)) = true := by
        intro d hsub hd
        refine subdoc_cons_lift d k0 v0 tl ?_ hd
        intro k hkk hek
        subst hek
        rw [hsub k hkk] at hwk
        exact Bool.noConfusion hwk
      by_cases hp : p k0
      · simp only [Dict.filterKeys, hp, if_pos rfl]
        simp only [subdoc, Bool.and_eq_true]
        constructor
        · simp [Value.getV?, Dict.find?]
        · exact hlift (tl.filterKeys p) (fun k hkk => filterKeys_hasKey tl p k hkk)
            (subdoc_filterKeys tl hwtl p)
      · have hunf : Dict.filterKeys (Dict.cons k0 v0 tl) p = tl.filterKeys p := by
          simp [Dict.filterKeys, hp]
        rw [hunf]
        exact hlift (tl.filterKeys p) (fun k hkk => filterKeys_hasKey tl p k hkk)
          (subdoc_filterKeys tl hwtl p)

theorem pySetdefault_empty_find (es : Dict) (name : String) :
    ∃ es1, pySetdefault (vdict es) name (vdict Dict.nil)
        = .ok (vdict es1, (vdict es).getD name)
      ∧ (∀ k, k ≠ name → es1.find? k = es.find? k)
      ∧ es1.find? name = some ((vdict es).getD name) := by
  cases hf : es.find? name with
  | some w =>
      refine ⟨es, ?_, fun k hk => rfl, ?_⟩
      · simp [pySetdefault, Dict.setdefault, hf, Value.getD, Value.getV?]
      · simp [hf, Value.getD, Value.getV?]
  | none =>
      refine ⟨es.pushEnd name (vdict Dict.nil), ?_, ?_, ?_⟩
      · simp [pySetdefault, Dict.setdefault, hf, Value.getD, Value.getV?]
      · exact fun k hk => Dict.find?_pushEnd_ne hk _
      · simp [Dict.find?_pushEnd_self hf, Value.getD, Value.getV?, hf]

theorem selfCoerce_congr : ∀ (tl : Dict) (ds ds' : Dict),
    (∀ k, tl.hasKey k = true → ds.find? k = ds'.find? k) →
    selfCoerce tl (vdict ds) = selfCoerce tl (vdict ds')
  | Dict.nil, _, _, _ => rfl
  | Dict.cons name value tlr, ds, ds', hk => by
      have hname : ds.find? name = ds'.find? name :=
        hk name (Dict.hasKey_cons_self tlr name value)
      have hrec := selfCoerce_congr tlr ds ds'
        (fun k hkk => hk k (Dict.hasKey_cons_of_tail name value hkk))
      match value with
      | vdict sub =>
          simp only [selfCoerce]
          rw [hrec]
          have : (vdict ds).getD name = (vdict ds').getD name := by
            simp [Value.getD, Value.getV?, hname]
          rw [this]
      | vnull =>
          simp only [selfCoerce]
          rw [hrec]
          simp only [pyContains, Dict.hasKey, hname, pyGetItem]
      | vbool b =>
          simp only [selfCoerce]
          rw [hrec]
          simp only [pyContains, Dict.hasKey, hname, pyGetItem]
      | vint n =>
          simp only [selfCoerce]
          rw [hrec]
          simp only [pyContains, Dict.hasKey, hname, pyGetItem]
      | vstr s =>
          simp only [selfCoerce]
          rw [hrec]
          simp only [pyContains, Dict.hasKey, hname, pyGetItem]
      | vlist xs =>
          simp only [selfCoerce]
          rw [hrec]
          simp only [pyContains, Dict.hasKey, hname, pyGetItem]

theorem selfCoerce_leaf_do (value : Value) (name : String) (defaults : Value)
    (hleaf : (match pyContains defaults (vstr name) with
        | .ok true =>
            match pyGetItem defaults name with
            | .ok ref =>
                match _coerce value ref with
                | .ok v' => v' == value
                | .error _ => false
            | .error _ => false
        | .ok false => true
        | .error _ => false) = true) :
    (do
      if (← pyContains defaults (vstr name)) then
        _coerce value (← pyGetItem defaults name)
      else pure value : Except Err Value) = .ok value := by
  cases hpc : pyContains defaults (vstr name) with
  | error e =>
      rw [hpc] at hleaf
      exact Bool.noConfusion hleaf
  | ok b =>
      cases b with
      | false =>
          simp [bind, Except.bind, hpc, pure, Except.pure]
      | true =>
          rw [hpc] at hleaf
          dsimp only at hleaf
          cases hgi : pyGetItem defaults name with
          | error e =>
              simp only [hgi] at hleaf
              exact Bool.noConfusion hleaf
          | ok ref =>
              simp only [hgi] at hleaf
              cases hcx : _coerce value ref with
              | error e =>
                  simp only [hcx] at hleaf
                  exact Bool.noConfusion hleaf
              | ok v' =>
                  simp only [hcx] at hleaf
                  have hv : v' = value := by
                    simpa using hleaf
                  subst hv
                  simp [bind, Except.bind, hpc, hgi, hcx]

theorem update_submap_leaf (name : String) (value : Value) (tl : Dict) (es : Dict)
    (defaults : Value) (path : List String)
    (hval : ∀ sub, value ≠ vdict sub)
    (hfind : es.find? name = some value)
    (hdo : (do
        if (← pyContains defaults (vstr name)) then
          _coerce value (← pyGetItem defaults name)
        else pure value : Except Err Value) = .ok value)
    (ih : (_update tl (vdict es) defaults path).root = vdict es
      ∧ (_update tl (vdict es) defaults path).err = none
      ∧ (_update tl (vdict es) defaults path).diags = []
      ∧ (_update tl (vdict es) defaults path).defaults.isDict = defaults.isDict
      ∧ (∀ k, ((_update tl (vdict es) defaults path).defaults.getV? k).isSome →
          (defaults.getV? k).isSome ∨ tl.hasKey k = true)) :
    (_update (Dict.cons name value tl) (vdict es) defaults path).root = vdict es
    ∧ (_update (Dict.cons name value tl) (vdict es) defaults path).err = none
    ∧ (_update (Dict.cons name value tl) (vdict es) defaults path).diags = []
    ∧ (_update (Dict.cons name value tl) (vdict es) defaults path).defaults.isDict
        = defaults.isDict
    ∧ (∀ k, ((_update (Dict.cons name value tl) (vdict es) defaults path).defaults.getV? k).isSome →
        (defaults.getV? k).isSome ∨ (Dict.cons name value tl).hasKey k = true) := by
  rw [update_cons_leaf name value tl (vdict es) defaults path hval]
  simp only [hdo]
  simp only [pySetItem]
  rw [Dict.setItem_self hfind]
  obtain ⟨i1, i2, i3, i4, i5⟩ := ih
  exact ⟨i1, i2, i3, i4, fun k hk => (i5 k hk).imp id (Dict.hasKey_cons_of_tail name value)⟩


theorem getD_congr {a b : Dict} {k : String} (h : a.find? k = b.find? k) :
    (vdict a).getD k = (vdict b).getD k := by
  simp [Value.getD, Value.getV?, h]

theorem update_submap : ∀ (doc : Dict) (live defaults : Value) (path : List String),
    Value.WFv.WFd doc = true → subdoc doc live = true →
    selfCoerce doc defaults = true → safeMerge doc live defaults = true →
    (_update doc live defaults path).root = live
    ∧ (_update doc live defaults path).err = none
    ∧ (_update doc live defaults path).diags = []
    ∧ (_update doc live defaults path).defaults.isDict = defaults.isDict
    ∧ (∀ k, ((_update doc live defaults path).defaults.getV? k).isSome →
        (defaults.getV? k).isSome ∨ doc.hasKey k = true)
  | Dict.nil, live, defaults, path, _, _, _, _ =>
      ⟨rfl, rfl, rfl, rfl, fun k hk => Or.inl hk⟩
  | Dict.cons name value tl, live, defaults, path, hwf, hsub, hsc, hsafe => by
      simp only [Value.WFv.WFd, Bool.and_eq_true, Bool.not_eq_true'] at hwf
      obtain ⟨⟨hwk, hwv⟩, hwtl⟩ := hwf
      simp only [subdoc, Bool.and_eq_true] at hsub
      obtain ⟨hsub1, hsub2⟩ := hsub
      have hsub1' : live.getV? name = some value := eq_of_beq hsub1
      match live, hsub1' with
      | vdict es, hsub1' =>
        have hfind : es.find? name = some value := by simpa [Value.getV?] using hsub1'
        match value, hfind, hsc, hsafe with
        | vdict sub, hfind, hsc, hsafe =>
            simp only [selfCoerce, Bool.and_eq_true] at hsc
            obtain ⟨hscv, hsctl⟩ := hsc
            simp only [safeMerge, Bool.and_eq_true] at hsafe
            obtain ⟨⟨⟨hld, hdd⟩, hsafesub⟩, hsafetl⟩ := hsafe
            obtain ⟨ds, rfl⟩ := isDict_iff hdd
            have hsd1 : pySetdefault (vdict es) name (vdict Dict.nil)
                = .ok (vdict es, vdict sub) := by
              simp [pySetdefault, Dict.setdefault, hfind]
            obtain ⟨ds1, hsd2, hds1, hf2⟩ := pySetdefault_empty_find ds name
            have hgetDes : (vdict es).getD name = vdict sub := by
              simp [Value.getD, Value.getV?, hfind]
            rw [hgetDes] at hsafesub
            have hwsub : Value.WFv.WFd sub = true := by simpa [Value.WFv] using hwv
            have ihsub := update_submap sub (vdict sub) ((vdict ds).getD name)
              (path ++ [name]) hwsub (subdoc_refl sub hwsub) hscv hsafesub
            obtain ⟨o1, o2, o3, o4, o5⟩ := ihsub
            have hcongk : ∀ k, tl.hasKey k = true →
                (ds1.setItem name (_update sub (vdict sub) ((vdict ds).getD name)
                    (path ++ [name])).defaults).find? k = ds.find? k := by
              intro k hkk
              have hk : k ≠ name := by
                intro hh
                subst hh
                rw [hkk] at hwk
                exact Bool.noConfusion hwk
              rw [Dict.find?_setItem]
              rw [if_neg hk]
              exact hds1 k hk
            have hsctl' : selfCoerce tl (vdict (ds1.setItem name
                (_update sub (vdict sub) ((vdict ds).getD name) (path ++ [name])).defaults))
                = true := by
              rw [← selfCoerce_congr tl ds _ (fun k hkk => (hcongk k hkk).symm)]
              exact hsctl
            have hsafetl' : safeMerge tl (vdict es) (vdict (ds1.setItem name
                (_update sub (vdict sub) ((vdict ds).getD name) (path ++ [name])).defaults))
                = true := by
              rw [← safeMerge_congr tl (vdict es) (vdict es) (vdict ds)
                (vdict (ds1.setItem name (_update sub (vdict sub) ((vdict ds).getD name)
                  (path ++ [name])).defaults)) rfl rfl ?_]
              · exact hsafetl
              · intro k hkk
                exact ⟨rfl, (getD_congr (hcongk k hkk)).symm⟩
            have ihtl := update_submap tl (vdict es) (vdict (ds1.setItem name
              (_update sub (vdict sub) ((vdict ds).getD name) (path ++ [name])).defaults))
              path hwtl hsub2 hsctl' hsafetl'
            obtain ⟨t1, t2, t3, t4, t5⟩ := ihtl
            simp only [_update, hsd1, hsd2, hgetDes, Value.setIn, o1, o2, o3,
              Dict.setItem_self hfind]
            refine ⟨t1, t2, by simp [t3], t4, ?_⟩
            intro k hk
            rcases t5 k hk with hk2 | hk2
            · simp only [Value.getV?] at hk2
              by_cases hkn : k = name
              · subst hkn
                exact Or.inr (Dict.hasKey_cons_self tl k (vdict sub))
              · rw [Dict.find?_setItem, if_neg hkn, hds1 k hkn] at hk2
                exact Or.inl hk2
            · exact Or.inr (Dict.hasKey_cons_of_tail name (vdict sub) hk2)
        | vnull, hfind, hsc, hsafe =>
            simp only [selfCoerce, Bool.and_eq_true] at hsc
            obtain ⟨hscv, hsctl⟩ := hsc
            exact update_submap_leaf name vnull tl es defaults path
              (fun _ h => Value.noConfusion h) hfind
              (selfCoerce_leaf_do vnull name defaults hscv)
              (update_submap tl (vdict es) defaults path hwtl hsub2 hsctl
                (by simpa [safeMerge] using hsafe))
        | vbool b, hfind, hsc, hsafe =>
            simp only [selfCoerce, Bool.and_eq_true] at hsc
            obtain ⟨hscv, hsctl⟩ := hsc
            exact update_submap_leaf name (vbool b) tl es defaults path
              (fun _ h => Value.noConfusion h) hfind
              (selfCoerce_leaf_do (vbool b) name defaults hscv)
              (update_submap tl (vdict es) defaults path hwtl hsub2 hsctl
                (by simpa [safeMerge] using hsafe))
        | vint n, hfind, hsc, hsafe =>
            simp only [selfCoerce, Bool.and_eq_true] at hsc
            obtain ⟨hscv, hsctl⟩ := hsc
            exact update_submap_leaf name (vint n) tl es defaults path
              (fun _ h => Value.noConfusion h) hfind
              (selfCoerce_leaf_do (vint n) name defaults hscv)
              (update_submap tl (vdict es) defaults path hwtl hsub2 hsctl
                (by simpa [safeMerge] using hsafe))
        | vstr s, hfind, hsc, hsafe =>
            simp only [selfCoerce, Bool.and_eq_true] at hsc
            obtain ⟨hscv, hsctl⟩ := hsc
            exact update_submap_leaf name (vstr s) tl es defaults path
              (fun _ h => Value.noConfusion h) hfind
              (selfCoerce_leaf_do (vstr s) name defaults hscv)
              (update_submap tl (vdict es) defaults path hwtl hsub2 hsctl
                (by simpa [safeMerge] using hsafe))
        | vlist xs, hfind, hsc, hsafe =>
            simp only [selfCoerce, Bool.and_eq_true] at hsc
            obtain ⟨hscv, hsctl⟩ := hsc
            exact update_submap_leaf name (vlist xs) tl es defaults path
              (fun _ h => Value.noConfusion h) hfind
              (selfCoerce_leaf_do (vlist xs) name defaults hscv)
              (update_submap tl (vdict es) defaults path hwtl hsub2 hsctl
                (by simpa [safeMerge] using hsafe))

theorem pushEnd_eq_concat : ∀ (d : Dict) (k : String) (v : Value),
    d.pushEnd k v = d.concat (Dict.cons k v Dict.nil)
  | Dict.nil, k, v => rfl
  | Dict.cons k0 v0 tl, k, v => by
      simp [Dict.pushEnd, Dict.concat, pushEnd_eq_concat tl k v]

theorem update_append_leaf (name : String) (value : Value) (tl d2 : Dict)
    (root defaults : Value) (path : List String)
    (hval : ∀ sub, value ≠ vdict sub)
    (herr : (_update (Dict.cons name value tl) root defaults path).err = none)
    (ih : ∀ r d, (_update tl r d path).err = none →
      _update (tl.concat d2) r d path =
        ⟨(_update d2 (_update tl r d path).root (_update tl r d path).defaults path).root,
         (_update d2 (_update tl r d path).root (_update tl r d path).defaults path).defaults,
         (_update tl r d path).diags
           ++ (_update d2 (_update tl r d path).root (_update tl r d path).defaults path).diags,
         (_update d2 (_update tl r d path).root (_update tl r d path).defaults path).err⟩) :
    _update ((Dict.cons name value tl).concat d2) root defaults path =
      ⟨(_update d2 (_update (Dict.cons name value tl) root defaults path).root
          (_update (Dict.cons name value tl) root defaults path).defaults path).root,
       (_update d2 (_update (Dict.cons name value tl) root defaults path).root
          (_update (Dict.cons name value tl) root defaults path).defaults path).defaults,
       (_update (Dict.cons name value tl) root defaults path).diags
         ++ (_update d2 (_update (Dict.cons name value tl) root defaults path).root
              (_update (Dict.cons name value tl) root defaults path).defaults path).diags,
       (_update d2 (_update (Dict.cons name value tl) root defaults path).root
          (_update (Dict.cons name value tl) root defaults path).defaults path).err⟩ := by
  rw [show (Dict.cons name value tl).concat d2 = Dict.cons name value (tl.concat d2) from rfl]
  rw [update_cons_leaf name value (tl.concat d2) root defaults path hval]
  rw [update_cons_leaf name value tl root defaults path hval] at herr ⊢
  cases hco : (do
      if (← pyContains defaults (vstr name)) then
        _coerce value (← pyGetItem defaults name)
      else pure value : Except Err Value) with
  | error e =>
      simp only [hco] at herr ⊢
      rw [ih root defaults herr]
      simp
  | ok v2 =>
      simp only [hco] at herr ⊢
      cases hsi : pySetItem root name v2 with
      | error e =>
          simp only [hsi] at herr ⊢
          rw [ih root defaults herr]
          simp
      | ok root1 =>
          simp only [hsi] at herr ⊢
          rw [ih root1 defaults herr]

theorem update_append : ∀ (d1 d2 : Dict) (root defaults : Value) (path : List String),
    (_update d1 root defaults path).err = none →
    _update (d1.concat d2) root defaults path =
      ⟨(_update d2 (_update d1 root defaults path).root
          (_update d1 root defaults path).defaults path).root,
       (_update d2 (_update d1 root defaults path).root
          (_update d1 root defaults path).defaults path).defaults,
       (_update d1 root defaults path).diags
         ++ (_update d2 (_update d1 root defaults path).root
              (_update d1 root defaults path).defaults path).diags,
       (_update d2 (_update d1 root defaults path).root
          (_update d1 root defaults path).defaults path).err⟩
  | Dict.nil, d2, root, defaults, path, _ => by
      simp [Dict.concat, _update]
  | Dict.cons name value tl, d2, root, defaults, path, herr => by
      match value with
      | vdict sub =>
          cases hsd1 : pySetdefault root name (vdict Dict.nil) with
          | error e =>
              exfalso
              simp only [_update, hsd1] at herr
              exact Option.noConfusion herr
          | ok pr =>
              obtain ⟨root1, subR⟩ := pr
              cases hsd2 : pySetdefault defaults name (vdict Dict.nil) with
              | error e =>
                  exfalso
                  simp only [_update, hsd1, hsd2] at herr
                  exact Option.noConfusion herr
              | ok pr2 =>
                  obtain ⟨defaults1, subD⟩ := pr2
                  cases hoerr : (_update sub subR subD (path ++ [name])).err with
                  | some e =>
                      exfalso
                      simp only [_update, hsd1, hsd2, hoerr] at herr
                      exact Option.noConfusion herr
                  | none =>
                      have herr' : (_update tl
                          (root1.setIn name (_update sub subR subD (path ++ [name])).root)
                          (defaults1.setIn name (_update sub subR subD (path ++ [name])).defaults)
                          path).err = none := by
                        simp only [_update, hsd1, hsd2, hoerr] at herr
                        exact herr
                      have ih := update_append tl d2
                        (root1.setIn name (_update sub subR subD (path ++ [name])).root)
                        (defaults1.setIn name (_update sub subR subD (path ++ [name])).defaults)
                        path herr'
                      rw [show (Dict.cons name (vdict sub) tl).concat d2
                        = Dict.cons name (vdict sub) (tl.concat d2) from rfl]
                      simp only [_update, hsd1, hsd2, hoerr, ih]
                      simp
      | vnull =>
          exact update_append_leaf name vnull tl d2 root defaults path
            (fun _ h => Value.noConfusion h) herr
            (fun r d h => update_append tl d2 r d path h)
      | vbool b =>
          exact update_append_leaf name (vbool b) tl d2 root defaults path
            (fun _ h => Value.noConfusion h) herr
            (fun r d h => update_append tl d2 r d path h)
      | vint n =>
          exact update_append_leaf name (vint n) tl d2 root defaults path
            (fun _ h => Value.noConfusion h) herr
            (fun r d h => update_append tl d2 r d path h)
      | vstr s =>
          exact update_append_leaf name (vstr s) tl d2 root defaults path
            (fun _ h => Value.noConfusion h) herr
            (fun r d h => update_append tl d2 r d path h)
      | vlist xs =>
          exact update_append_leaf name (vlist xs) tl d2 root defaults path
            (fun _ h => Value.noConfusion h) herr
            (fun r d h => update_append tl d2 r d path h)

theorem Dict.hasKey_mem_keys : ∀ (d : Dict) (k : String), d.hasKey k = true ↔ k ∈ d.keys
  | Dict.nil, k => by simp [Dict.hasKey, Dict.find?, Dict.keys]
  | Dict.cons k0 v0 tl, k => by
      by_cases h0 : k0 = k
      · subst h0
        simp [Dict.hasKey, Dict.find?, Dict.keys]
      · simp only [Dict.hasKey, Dict.find?, Dict.keys, h0, if_false]
        constructor
        · intro h
          exact List.mem_cons_of_mem _ ((Dict.hasKey_mem_keys tl k).mp h)
        · intro h
          rcases List.mem_cons.mp h with h | h
          · exact absurd h.symm h0
          · exact (Dict.hasKey_mem_keys tl k).mpr h

theorem setItem_truthy : ∀ (d : Dict) (k : String) (v : Value),
    truthy (vdict (d.setItem k v)) = true
  | Dict.nil, k, v => rfl
  | Dict.cons k0 v0 tl, k, v => by
      by_cases h0 : k0 = k <;> simp [Dict.setItem, h0, truthy]

theorem WFd_filterKeys : ∀ (d : Dict) (p : String → Bool),
    Value.WFv.WFd d = true → Value.WFv.WFd (d.filterKeys p) = true
  | Dict.nil, p, _ => rfl
  | Dict.cons k0 v0 tl, p, hwf => by
      simp only [Value.WFv.WFd, Bool.and_eq_true, Bool.not_eq_true'] at hwf
      obtain ⟨⟨hwk, hwv⟩, hwtl⟩ := hwf
      by_cases hp : p k0
      · simp only [Dict.filterKeys, hp, if_pos rfl]
        simp only [Value.WFv.WFd, Bool.and_eq_true, Bool.not_eq_true']
        refine ⟨⟨?_, hwv⟩, WFd_filterKeys tl p hwtl⟩
        by_contra hcon
        rw [Bool.not_eq_false] at hcon
        rw [filterKeys_hasKey tl p k0 hcon] at hwk
        exact Bool.noConfusion hwk
      · have hunf : Dict.filterKeys (Dict.cons k0 v0 tl) p = tl.filterKeys p := by
          simp [Dict.filterKeys, hp]
        rw [hunf]
        exact WFd_filterKeys tl p hwtl

theorem knownNames_contains_false (st : ConfigurationStore) (k : String)
    (hk : st.defaults.hasKey k = false) (hp : k ≠ "providers") :
    (knownNames st).contains k = false := by
  unfold knownNames
  by_contra h
  rw [Bool.not_eq_false] at h
  have hm : k ∈ st.defaults.keys ++ ["providers"] := by simpa using h
  rcases List.mem_append.mp hm with hm | hm
  · rw [(Dict.hasKey_mem_keys _ _).mpr hm] at hk
    exact Bool.noConfusion hk
  · simp at hm
    exact hp hm

theorem update_version_singleton (es dd : Dict)
    (hfound : dd.find? "version" = none) :
    _update (Dict.cons "version" (vstr panVersion) Dict.nil) (vdict es) (vdict dd) []
      = ⟨vdict (es.setItem "version" (vstr panVersion)), vdict dd, [], none⟩ := by
  rw [update_cons_leaf "version" (vstr panVersion) Dict.nil (vdict es) (vdict dd) []
    (fun _ h => Value.noConfusion h)]
  have hdo : (do
      if (← pyContains (vdict dd) (vstr "version")) then
        _coerce (vstr panVersion) (← pyGetItem (vdict dd) "version")
      else pure (vstr panVersion) : Except Err Value) = .ok (vstr panVersion) := by
    simp [pyContains, hfound, bind, Except.bind, pure, Except.pure]
  simp only [hdo, pySetItem]
  rfl

theorem navigate_cons_eq {a b : Dict} {s : String} (h : a.find? s = b.find? s)
    (rest : List String) :
    navigate (vdict a) (s :: rest) = navigate (vdict b) (s :: rest) := by
  simp [navigate, pyGetItem, h]

/-- C9 amended: for a well-formed store whose defaults tree has no
top-level `version` key, whose persisted document merges without an
uncaught exception, and whose persisted leaves are all invariant under
coercion by their defaults, `write` followed by `read` of the written
document raises nothing, prints nothing, and leaves the value of every
dotted option whose first segment is not `version` exactly as it was
before (the live store only gains the `version` stamp); the written
document drops every top-level key outside the known set (current
`DEFAULTS` keys plus `providers`) and always carries a `version` field
stamped with the application version.  The coercion-invariance proviso is
what the counterexample forces: without it, `read` replaces a
previously-set value by its coerced image. -/
theorem write_read_roundtrip (st : ConfigurationStore)
    (hwf : Value.WFv.WFd st.live = true)
    (hver : st.defaults.hasKey "version" = false)
    (hsc : selfCoerce (st.live.filterKeys (fun k => (knownNames st).contains k))
        (vdict st.defaults) = true)
    (hsm : safeMerge (st.live.filterKeys (fun k => (knownNames st).contains k))
        (vdict st.live) (vdict st.defaults) = true) :
    ((writeRead st).err = none ∧ (writeRead st).diags = [])
    ∧ (∀ opt, (splitDots opt).head? ≠ some "version" →
        (writeRead st).store.get opt = st.get opt)
    ∧ (∀ k, (knownNames st).contains k = false → k ≠ "version" → st.write.find? k = none)
    ∧ st.write.find? "version" = some (vstr panVersion) := by
  have hpv : (knownNames st).contains "version" = false :=
    knownNames_contains_false st "version" hver (by decide)
  have hstripped :
      (st.live.filterKeys (fun k => (knownNames st).contains k)).find? "version" = none :=
    filterKeys_find?_of_not _ _ _ hpv
  have hwrite : st.write
      = (st.live.filterKeys (fun k => (knownNames st).contains k)).concat
          (Dict.cons "version" (vstr panVersion) Dict.nil) := by
    unfold ConfigurationStore.write
    rw [Dict.setItem_absent hstripped, pushEnd_eq_concat]
  obtain ⟨o1, o2, o3, o4, o5⟩ := update_submap
    (st.live.filterKeys (fun k => (knownNames st).contains k))
    (vdict st.live) (vdict st.defaults) []
    (WFd_filterKeys st.live _ hwf)
    (subdoc_filterKeys st.live hwf _)
    hsc hsm
  obtain ⟨dd, hdd⟩ := isDict_iff o4
  have hddv : dd.find? "version" = none := by
    by_contra hcon
    have hsome : (((_update (st.live.filterKeys (fun k => (knownNames st).contains k))
        (vdict st.live) (vdict st.defaults) []).defaults).getV? "version").isSome := by
      rw [hdd]
      simpa [Value.getV?, Option.isSome_iff_ne_none] using hcon
    rcases o5 "version" hsome with h | h
    · simp only [Value.getV?] at h
      rw [show (st.defaults.find? "version").isSome = st.defaults.hasKey "version" from rfl,
        hver] at h
      exact Bool.noConfusion h
    · rw [show (st.live.filterKeys (fun k => (knownNames st).contains k)).hasKey "version"
          = ((st.live.filterKeys (fun k => (knownNames st).contains k)).find? "version").isSome
          from rfl, hstripped] at h
      exact Bool.noConfusion h
  have hbig : _update st.write (vdict st.live) (vdict st.defaults) []
      = ⟨vdict (st.live.setItem "version" (vstr panVersion)), vdict dd, [], none⟩ := by
    rw [hwrite]
    rw [update_append _ _ _ _ _ o2]
    rw [o1, o3, hdd]
    rw [update_version_singleton st.live dd hddv]
    rfl
  have htr : truthy (vdict st.write) = true := by
    unfold ConfigurationStore.write
    exact setItem_truthy _ _ _
  have hread : writeRead st
      = ⟨⟨st.live.setItem "version" (vstr panVersion), dd⟩, [], none⟩ := by
    unfold writeRead ConfigurationStore.read
    dsimp only
    rw [htr]
    simp only [if_pos rfl]
    rw [hbig]
    rfl
  refine ⟨⟨by rw [hread], by rw [hread]⟩, ?_, ?_, ?_⟩
  · intro opt hhead
    rw [hread]
    unfold ConfigurationStore.get
    cases hsp : splitDots opt with
    | nil => exact absurd hsp (splitDotsAux_ne_nil [] opt.toList)
    | cons s rest =>
        have hs : s ≠ "version" := by
          rw [hsp] at hhead
          simpa using hhead
        exact navigate_cons_eq (by rw [Dict.find?_setItem, if_neg hs]) rest
  · intro k hk hkv
    unfold ConfigurationStore.write
    rw [Dict.find?_setItem, if_neg hkv]
    exact filterKeys_find?_of_not _ _ _ hk
  · unfold ConfigurationStore.write
    rw [Dict.find?_setItem, if_pos rfl]

/-- Witness for C9 on a fresh store: the round trip raises nothing, the
untouched `provider` option is reproduced, an unknown top-level key is
absent from the written document, and the `version` stamp is present. -/
theorem write_read_roundtrip_witness :
    (Value.WFv.WFd (ConfigurationStore.init DEFAULTS).live = true
      ∧ (ConfigurationStore.init DEFAULTS).defaults.hasKey "version" = false)
    ∧ ((writeRead (ConfigurationStore.init DEFAULTS)).err = none
      ∧ (writeRead (ConfigurationStore.init DEFAULTS)).store.get "provider"
          = (ConfigurationStore.init DEFAULTS).get "provider"
      ∧ (ConfigurationStore.init DEFAULTS).write.find? "junk" = none
      ∧ (ConfigurationStore.init DEFAULTS).write.find? "version" = some (vstr panVersion)) := by
  refine ⟨⟨rfl, rfl⟩, ?_, ?_, ?_, ?_⟩
  · exact (write_read_roundtrip (ConfigurationStore.init DEFAULTS) rfl rfl rfl rfl).1.1
  · exact (write_read_roundtrip (ConfigurationStore.init DEFAULTS) rfl rfl rfl rfl).2.1
      "provider" (by decide)
  · exact (write_read_roundtrip (ConfigurationStore.init DEFAULTS) rfl rfl rfl rfl).2.2.1
      "junk" rfl (by decide)
  · exact (write_read_roundtrip (ConfigurationStore.init DEFAULTS) rfl rfl rfl rfl).2.2.2
